import Mathlib

/-!
A shallow embedding of `src/src/util/profile/prof_tree.c` (the profile parse
tree of the krb5 profile library) together with proofs about it.

Modelling conventions:

* `struct profile_node` becomes the inductive `PNode`.  The C doubly-linked
  sibling chain (`first_child` / `next` / `prev`) is represented as the ordered
  list `children`; the sibling-link consistency invariant (`next.prev == self`)
  and the `parent` back-pointer invariant are identities of this representation
  and hence are not separately representable.  A pointer *into* a sibling chain
  (a scan cursor) is represented as the suffix of the sibling list that starts
  at the pointed-to node; the null pointer is the empty list.
* `errcode_t` is `Nat`, with `0` meaning success.  Fallible operations return
  `Except Nat _`; operations that fill several out parameters return a result
  structure carrying the error code.
* Error-code and magic constants live in `prof_err.h` / `prof_int.h`, which are
  not part of the repository snapshot; they are modelled as arbitrary distinct
  nonzero naturals (only distinctness and nonzeroness matter to the code).
* `malloc` failure (`ENOMEM`) is not modelled: allocation always succeeds.
-/

/-- Modelled from the spec: the live-node identity marker `PROF_MAGIC_NODE`
from `prof_int.h` (not in the snapshot); an arbitrary nonzero value, used both
as the magic tag and as the error code returned on a magic mismatch. -/
def PROF_MAGIC_NODE : Nat := 1001

/-- Modelled from the spec: the live-iterator marker `PROF_MAGIC_ITERATOR`. -/
def PROF_MAGIC_ITERATOR : Nat := 1002

/-- Modelled from the spec: the profile-object marker `PROF_MAGIC_PROFILE`. -/
def PROF_MAGIC_PROFILE : Nat := 1003

/-- Modelled from the spec: error code for a scan that found no relation. -/
def PROF_NO_RELATION : Nat := 2001

/-- Modelled from the spec: error code for a scan that found no subsection. -/
def PROF_NO_SECTION : Nat := 2002

/-- Modelled from the spec: error for inserting under a non-section node. -/
def PROF_ADD_NOT_SECTION : Nat := 2003

/-- Modelled from the spec: verify error, a node with value and children. -/
def PROF_SECTION_WITH_VALUE : Nat := 2004

/-- Modelled from the spec: verify error, inconsistent sibling links. -/
def PROF_BAD_LINK_LIST : Nat := 2005

/-- Modelled from the spec: verify error, wrong child `group_level`. -/
def PROF_BAD_GROUP_LVL : Nat := 2006

/-- Modelled from the spec: verify error, wrong child `parent` pointer. -/
def PROF_BAD_PARENT_PTR : Nat := 2007

/-- Modelled from the spec: error for a null profile handle. -/
def PROF_NO_PROFILE : Nat := 2008

/-- Modelled from the spec: error for a null or empty iterator name set. -/
def PROF_BAD_NAMESET : Nat := 2009

/-- Addressing artifact of the list-tree model: C callers hold a direct
pointer to the target section, the model selects it by a child-index path.
An out-of-range path yields this (otherwise unused) code. -/
def MODEL_BAD_PATH : Nat := 9999

/-- `struct profile_node` (prof_tree.c lines 30-39).  `final` is the C bitfield
`int final:1`; `value` is present iff the node is a relation; `children` stands
for the `first_child`/`next`/`prev` sibling chain; the `parent` pointer is
implicit in the tree shape. -/
inductive PNode : Type where
  | mk (magic : Nat) (name : String) (value : Option String) (group_level : Int)
       (final : Bool) (children : List PNode)

def PNode.magic : PNode → Nat
  | .mk m _ _ _ _ _ => m

def PNode.name : PNode → String
  | .mk _ n _ _ _ _ => n

def PNode.value : PNode → Option String
  | .mk _ _ v _ _ _ => v

def PNode.group_level : PNode → Int
  | .mk _ _ _ g _ _ => g

def PNode.final : PNode → Bool
  | .mk _ _ _ _ f _ => f

def PNode.children : PNode → List PNode
  | .mk _ _ _ _ _ c => c

/-- Replace the child list of a node (what in-place surgery on the sibling
chain does in C). -/
def PNode.withChildren : PNode → List PNode → PNode
  | .mk m n v g f _, c => .mk m n v g f c

/-- Lexicographic comparison of character lists by codepoint. -/
def charListLt : List Char → List Char → Bool
  | [], [] => false
  | [], _ :: _ => true
  | _ :: _, [] => false
  | a :: as, b :: bs =>
    if a.toNat < b.toNat then true
    else if b.toNat < a.toNat then false
    else charListLt as bs

/-- `strcmp(a, b) > 0` on node names.  C compares bytes; for valid UTF-8 the
byte order coincides with this codepoint-lexicographic order. -/
def strGt (a b : String) : Bool := charListLt b.data a.data

/-- `profile_create_node` (lines 73-101): a fresh node with the given name and
optional value; `memset` zeroes `group_level`, `final` and the links.
Allocation failure (ENOMEM) is not modelled. -/
def profile_create_node (name : String) (value : Option String) : PNode :=
  .mk PROF_MAGIC_NODE name value 0 false []

mutual

/-- `profile_verify_node` (lines 108-134): returns the first invariant
violation found, else 0. -/
def profile_verify_node : PNode → Nat
  | .mk m _ v g _ c =>
    if m ≠ PROF_MAGIC_NODE then PROF_MAGIC_NODE
    else if v.isSome && !c.isEmpty then PROF_SECTION_WITH_VALUE
    else verifyChildren g c

/-- The per-child checks of `profile_verify_node` (lines 119-132), in source
order.  The sibling-link check (`p->prev == last`, `last->next == p`) and the
parent-pointer check (`p->parent == node`) are identities of the list
representation and therefore always pass; the remaining checks are the
`group_level` check and the recursive verification. -/
def verifyChildren (lvl : Int) : List PNode → Nat
  | [] => 0
  | p :: rest =>
    if lvl + 1 ≠ p.group_level then PROF_BAD_GROUP_LVL
    else
      let r := profile_verify_node p
      if r ≠ 0 then r else verifyChildren lvl rest

end

/-- The insertion scan of `profile_add_node` (lines 158-175): the C loop walks
the children and breaks at the first child whose name compares strictly
greater than `name`, splicing the new node in right before it (after the whole
run of names that are ≤ `name` seen so far); if no child is greater the new
node is appended. -/
def insertChild (name : String) (new : PNode) : List PNode → List PNode
  | [] => [new]
  | p :: rest =>
    if strGt p.name name then new :: p :: rest
    else p :: insertChild name new rest

/-- `profile_add_node` (lines 139-179).  Returns the updated section and the
newly created node (`*ret_node`). -/
def profile_add_node (sec : PNode) (name : String) (value : Option String) :
    Except Nat (PNode × PNode) :=
  if sec.magic ≠ PROF_MAGIC_NODE then .error PROF_MAGIC_NODE
  else if sec.value.isSome then .error PROF_ADD_NOT_SECTION
  else
    let new :=
      match profile_create_node name value with
      | .mk m n v _ f c => PNode.mk m n v (sec.group_level + 1) f c
    .ok (sec.withChildren (insertChild name new sec.children), new)

/-- `profile_make_node_final` (lines 184-191). -/
def profile_make_node_final (node : PNode) : Except Nat PNode :=
  if node.magic ≠ PROF_MAGIC_NODE then .error PROF_MAGIC_NODE
  else
    match node with
    | .mk m n v g _ c => .ok (PNode.mk m n v g true c)

/-- `profile_is_node_final` (lines 196-200): no magic check, plain read. -/
def profile_is_node_final (node : PNode) : Bool := node.final

/-- `profile_get_node_parent` (lines 362-367): `*parent = section->parent;
return 0;`.  The parent pointer is context in the list-tree model, so the
model receives it as an argument; the point preserved from the source is that
the function performs no magic check and unconditionally succeeds. -/
def profile_get_node_parent (_sec : PNode) (parent : Option PNode) :
    Nat × Option PNode :=
  (0, parent)

/-- `name == 0 || strcmp(p->name, name) == 0`: the shared name filter of the
scanners and the merge iterator (a null name matches everything). -/
def nameMatches (name : Option String) (p : PNode) : Bool :=
  match name with
  | none => true
  | some n => p.name == n

/-- The suffix of a sibling chain starting at the first node satisfying `f`
(the C pattern `while (p) { if (f(p)) break; p = p->next; }`); `[]` is the
null pointer reached when no node qualifies. -/
def dropUntil (f : PNode → Bool) : List PNode → List PNode
  | [] => []
  | p :: rest => if f p then p :: rest else dropUntil f rest

/-- A child qualifying for `profile_find_node_relation`: name filter plus
`p->value` non-null. -/
def relQual (name : Option String) (p : PNode) : Bool :=
  nameMatches name p && p.value.isSome

/-- A child qualifying for `profile_find_node_subsection`: name filter plus
`p->value == 0`. -/
def subQual (name : Option String) (p : PNode) : Bool :=
  nameMatches name p && !p.value.isSome

/-- Result of `profile_find_node_relation`: the error code, the stored cursor
`*state`, and the out parameters `*ret_name` and `*value`. -/
structure FindRelResult where
  err : Nat
  state : List PNode
  ret_name : Option String
  value : Option String

/-- The body of `profile_find_node_relation` from the scan start position:
find the first qualifying child; on failure clear the cursor and return
`PROF_NO_RELATION`; on success fill the out parameters and pre-scan for the
next qualifying node, storing it (or null) as the new cursor (lines 230-258). -/
def findRelFrom (name : Option String) (start : List PNode) : FindRelResult :=
  match dropUntil (relQual name) start with
  | [] => { err := PROF_NO_RELATION, state := [], ret_name := none, value := none }
  | p :: rest =>
    { err := 0, state := dropUntil (relQual name) rest,
      ret_name := some p.name, value := p.value }

/-- `profile_find_node_relation` (lines 215-259).  A null `*state` (the empty
list) starts at the section's first child; a non-null cursor is magic-checked
(after the section's own magic check) and scanning starts at it. -/
def profile_find_node_relation (sec : PNode) (name : Option String) :
    List PNode → FindRelResult
  | [] =>
    if sec.magic ≠ PROF_MAGIC_NODE then
      { err := PROF_MAGIC_NODE, state := [], ret_name := none, value := none }
    else findRelFrom name sec.children
  | p :: rest =>
    if sec.magic ≠ PROF_MAGIC_NODE then
      { err := PROF_MAGIC_NODE, state := p :: rest, ret_name := none, value := none }
    else if p.magic ≠ PROF_MAGIC_NODE then
      { err := PROF_MAGIC_NODE, state := p :: rest, ret_name := none, value := none }
    else findRelFrom name (p :: rest)

/-- Result of `profile_find_node_subsection`: error code, stored cursor, and
the out parameters `*ret_name` and `*subsection`. -/
structure FindSubResult where
  err : Nat
  state : List PNode
  ret_name : Option String
  subsection : Option PNode

/-- The body of `profile_find_node_subsection` from the scan start position
(lines 286-314), symmetric to `findRelFrom`. -/
def findSubFrom (name : Option String) (start : List PNode) : FindSubResult :=
  match dropUntil (subQual name) start with
  | [] => { err := PROF_NO_SECTION, state := [], ret_name := none, subsection := none }
  | p :: rest =>
    { err := 0, state := dropUntil (subQual name) rest,
      ret_name := some p.name, subsection := some p }

/-- `profile_find_node_subsection` (lines 269-315). -/
def profile_find_node_subsection (sec : PNode) (name : Option String) :
    List PNode → FindSubResult
  | [] =>
    if sec.magic ≠ PROF_MAGIC_NODE then
      { err := PROF_MAGIC_NODE, state := [], ret_name := none, subsection := none }
    else findSubFrom name sec.children
  | p :: rest =>
    if sec.magic ≠ PROF_MAGIC_NODE then
      { err := PROF_MAGIC_NODE, state := p :: rest, ret_name := none, subsection := none }
    else if p.magic ≠ PROF_MAGIC_NODE then
      { err := PROF_MAGIC_NODE, state := p :: rest, ret_name := none, subsection := none }
    else findSubFrom name (p :: rest)

/-- Split the child list at the first name-matching *relation* (the existence
loop of `profile_remove_node`, lines 328-331: `strcmp(p->name, name) == 0 &&
p->value`).  Returns the prefix before it and the suffix starting at it. -/
def findFirstRelSplit (name : String) : List PNode → Option (List PNode × List PNode)
  | [] => none
  | p :: rest =>
    if p.name == name && p.value.isSome then some ([], p :: rest)
    else
      match findFirstRelSplit name rest with
      | none => none
      | some (pre, suf) => some (p :: pre, suf)

/-- The deletion loop of `profile_remove_node` (lines 337-355): starting at
the first name-matching relation, walk while the name still matches; children
of the wrong kind (`section_flag` true wants sections, false wants relations)
are skipped, matching ones are unlinked and destroyed; the loop stops at the
first name mismatch, leaving the remainder untouched. -/
def removeRun (name : String) (section_flag : Bool) : List PNode → List PNode
  | [] => []
  | p :: rest =>
    if p.name == name then
      if (section_flag && p.value.isSome) || (!section_flag && !p.value.isSome) then
        p :: removeRun name section_flag rest
      else removeRun name section_flag rest
    else p :: rest

/-- `profile_remove_node` (lines 321-357).  Note: the source performs no
CHECK_MAGIC here, and the existence check requires a name-matching *relation*
(`p->value` non-null) regardless of `section_flag`; failure is always
`PROF_NO_RELATION`. -/
def profile_remove_node (sec : PNode) (name : String) (section_flag : Bool) :
    Except Nat PNode :=
  match findFirstRelSplit name sec.children with
  | none => .error PROF_NO_RELATION
  | some (pre, suf) =>
    .ok (sec.withChildren (pre ++ removeRun name section_flag suf))

/-! ## The merge iterator (prof_tree.c lines 373-543)

`prf_file_t` (the per-source file object, from `prof_int.h`, not in the
snapshot) is consumed through its root node, its `upd_serial` generation
counter and its `next` chain position.  The chain is modelled as a
`List PrfFile`; the iterator's `iter->file` pointer is the index of that file
in the chain (a reload mutates the pointed-to object in place, preserving its
chain position, so the index is stable across reloads).  Each call receives
the chain contents as they stand at that moment; passing a list with a bumped
`upd_serial` between calls models a reload.  `profile_update_file` is an
external collaborator (spec section 6); it is modelled as succeeding with no
change (the file is already up to date when the call is made). -/

/-- Modelled from the spec: a `ConfigSource` / `prf_file_t` as the iterator
consumes it — a root node and a generation counter. -/
structure PrfFile where
  root : PNode
  upd_serial : Nat

/-- Modelled from the spec: the profile object that owns the source chain
(`profile_t`), as consumed by `profile_node_iterator_create`. -/
structure Profile where
  magic : Nat
  first_file : List PrfFile

/-- The iterator flag word, as a record of the individual bits
(`PROFILE_ITER_LIST_SECTION`, `PROFILE_ITER_SECTIONS_ONLY`,
`PROFILE_ITER_RELATIONS_ONLY`, `PROFILE_ITER_FINAL_SEEN`). -/
structure IterFlags where
  list_section : Bool := false
  sections_only : Bool := false
  relations_only : Bool := false
  final_seen : Bool := false

/-- `struct profile_iterator` (lines 373-384).  `fileIdx` is the position of
`iter->file` in the source chain; `node` is the scan cursor as a sibling-list
suffix (`[]` = null).  The stored `iter->profile` back pointer is never read
by the iterator routines, so it is omitted. -/
structure ProfileIterator where
  magic : Nat
  flags : IterFlags
  names : List String
  name : Option String
  fileIdx : Nat
  file_serial : Nat
  done_idx : Nat
  node : List PNode
  num : Nat

/-- `profile_node_iterator_create` (lines 386-420).  `names` is `none` for a
null pointer argument; the uninitialized fields `iter->name` and
`iter->file_serial` (never read before being set by the first successful path
resolution) are given the inert values `none` and `0`. -/
def profile_node_iterator_create (profile : Option Profile)
    (names : Option (List String)) (fl : IterFlags) :
    Except Nat ProfileIterator :=
  match profile with
  | none => .error PROF_NO_PROFILE
  | some prof =>
    if prof.magic ≠ PROF_MAGIC_PROFILE then .error PROF_MAGIC_PROFILE
    else
      match names with
      | none => .error PROF_BAD_NAMESET
      | some ns =>
        if !fl.list_section && ns.isEmpty then .error PROF_BAD_NAMESET
        else
          .ok { magic := PROF_MAGIC_ITERATOR, flags := fl, names := ns,
                name := none, fileIdx := 0, file_serial := 0,
                done_idx := if fl.list_section then 0 else 1,
                node := [], num := 0 }

/-- `profile_node_iterator_free` (lines 422-434): a null or magic-mismatched
handle is left untouched; a live iterator is freed and the caller's handle
nulled (`*iter_p = 0`). -/
def profile_node_iterator_free (h : Option ProfileIterator) :
    Option ProfileIterator :=
  match h with
  | none => none
  | some it => if it.magic ≠ PROF_MAGIC_ITERATOR then some it else none

/-- The path components walked by the resolution loop
`for (cpp = iter->names; cpp[iter->done_idx]; cpp++)` together with the final
`*cpp` stored as the active name filter: with `done_idx = 1` all components
but the last are walked and the last is the filter; with `done_idx = 0`
(LIST_SECTION) all components are walked and the filter is null. -/
def pathComponents (done_idx : Nat) (names : List String) :
    List String × Option String :=
  if done_idx = 0 then (names, none) else (names.dropLast, names.getLast?)

/-- The path-resolution walk (lines 487-499): at each component find the
first child that is a subsection of that name; record (as the returned Bool)
whether any traversed subsection had its `final` flag set — the flag
accumulates even when a later component fails to resolve, exactly as
`iter->flags |= PROFILE_ITER_FINAL_SEEN` does. -/
def resolvePath (sec : PNode) : List String → Option PNode × Bool
  | [] => (some sec, false)
  | c :: rest =>
    match dropUntil (fun p => p.name == c && !p.value.isSome) sec.children with
    | [] => (none, false)
    | p :: _ =>
      let (r, f) := resolvePath p rest
      (r, p.final || f)

/-- A candidate qualifying in the scan loop (lines 513-520): name filter,
then the SECTIONS_ONLY / RELATIONS_ONLY kind filters. -/
def qualifies (name : Option String) (fl : IterFlags) (p : PNode) : Bool :=
  nameMatches name p && !(fl.sections_only && p.value.isSome)
    && !(fl.relations_only && !p.value.isSome)

/-- The scan loop (lines 512-526): walk the sibling suffix; the first `skip`
qualifying candidates are consumed without being emitted (`skip_num`), then
the next qualifying candidate is returned together with the suffix after it. -/
def scanQual (name : Option String) (fl : IterFlags) :
    List PNode → Nat → Option (PNode × List PNode)
  | [], _ => none
  | p :: rest, skip =>
    if qualifies name fl p then
      match skip with
      | 0 => some (p, rest)
      | skip' + 1 => scanQual name fl rest skip'
    else scanQual name fl rest skip

/-- Outcome of one `profile_node_iterator` call: `out err handle ret` carries
the returned error code, the caller's handle `*iter_p` after the call, and the
out parameters (`*ret_node`, `*ret_name`, `*ret_value`) — `ret = none` with
`err = 0` and `handle = none` is the end sentinel; `hang` marks the input on
which the C `while (iter->node == 0)` loop never terminates (a resolved
section with no children and no final flag seen). -/
inductive IterOut where
  | out (err : Nat) (handle : Option ProfileIterator)
        (ret : Option (PNode × String × Option String))
  | hang

/-- The scan phase plus yield bookkeeping (lines 512-527 and 534-542):
`iter->num` is incremented once per completed scan loop whether or not a
candidate was found; on a find, the cursor advances past it and, when the
found node was the last sibling, `iter->file` moves on; `none` reports scan
exhaustion (the `if (!p)` branch, lines 528-533, handled by the caller). -/
def doScan (it : ProfileIterator) (skip : Nat) : Option IterOut :=
  match scanQual it.name it.flags it.node skip with
  | none => none
  | some (p, rest) =>
    let it' : ProfileIterator :=
      { it with
          num := it.num + 1
          node := rest
          fileIdx := if rest.isEmpty then it.fileIdx + 1 else it.fileIdx }
    some (.out 0 (some it') (some (p, p.name, p.value)))

/-- One file's resolution step (lines 482-499): snapshot the generation
(`iter->file_serial = iter->file->upd_serial`), resolve the path components in
the file's root, and fold any traversed `final` flag into the iterator's
FINAL_SEEN bit (`iter->flags |= PROFILE_ITER_FINAL_SEEN`).  Returns the
updated iterator and the resolved section (null when some component failed). -/
def resolveFile (it : ProfileIterator) (f : PrfFile) : ProfileIterator × Option PNode :=
  match resolvePath f.root (pathComponents it.done_idx it.names).1 with
  | (osec, fdelta) =>
    ({ it with
        file_serial := f.upd_serial
        flags := { it.flags with final_seen := it.flags.final_seen || fdelta } },
     osec)

/-- The `get_new_file` loop plus scan (lines 465-542), after the staleness
check.  `rest` is the tail of the source chain from the iterator's current
file on (`rest = files.drop it.fileIdx`, maintained by the wrapper
`iterResolve`): `iter->file == 0` is `rest = []`, `iter->file->...` reads the
head of `rest`, and `iter->file = iter->file->next` recurses on the tail
while bumping the stored index.  Control flow notes relative to the C source:
* an exhausted scan (`iter->num++; if (!p) ... goto get_new_file`) or a
  failed resolution moves to the next file with `skip_num = 0`;
* `iter->name = *cpp` (line 505) is applied where the scan state is built,
  in the two branches following a successful resolution;
* a successful resolution with a *nonempty* child list falls through the
  `while (iter->node == 0)` guard into the scan;
* a successful resolution with an *empty* child list leaves `iter->node`
  null, so the `while` loop repeats on the same file: if the final flag is
  now set the next round frees the iterator, otherwise the loop never
  terminates (`IterOut.hang`). -/
def iterResolveGo : List PrfFile → ProfileIterator → Nat → IterOut
  | rest, it, skip_num =>
    if it.node.isEmpty then
      if it.flags.final_seen then .out 0 none none
      else
        match rest with
        | [] => .out 0 none none
        | f :: rest' =>
          match resolveFile it f with
          | (it2, none) => iterResolveGo rest' { it2 with fileIdx := it2.fileIdx + 1 } 0
          | (it2, some sec) =>
            if sec.children.isEmpty then
              if it2.flags.final_seen then .out 0 none none else .hang
            else
              match doScan { it2 with
                  name := (pathComponents it2.done_idx it2.names).2
                  node := sec.children } skip_num with
              | some o => o
              | none =>
                iterResolveGo rest'
                  { it2 with
                      name := (pathComponents it2.done_idx it2.names).2
                      node := []
                      num := it2.num + 1
                      fileIdx := it2.fileIdx + 1 } 0
    else
      match doScan it skip_num with
      | some o => o
      | none =>
        match rest with
        | [] => .out 0 none none
        | _ :: rest' =>
          iterResolveGo rest'
            { it with node := [], num := it.num + 1, fileIdx := it.fileIdx + 1 } 0

/-- The resolve-and-scan machinery positioned at the iterator's current file:
the remaining chain seen through `iter->file` is the suffix of the source
list from the stored index on. -/
def iterResolve (files : List PrfFile) (it : ProfileIterator) (skip_num : Nat) :
    IterOut :=
  iterResolveGo (files.drop it.fileIdx) it skip_num

/-- `profile_node_iterator` (lines 443-543): the handle and magic checks,
then the staleness check (lines 460-464: if the cursor is set and the current
file's generation no longer matches the snapshot, clear FINAL_SEEN, take
`iter->num` as the skip target and drop the cursor), then the
resolve-and-scan machinery.  A missing file at `fileIdx` (only reachable from
states the API itself never produces) counts as changed. -/
def profile_node_iterator (files : List PrfFile) (h : Option ProfileIterator) :
    IterOut :=
  match h with
  | none => .out PROF_MAGIC_ITERATOR none none
  | some it =>
    if it.magic ≠ PROF_MAGIC_ITERATOR then .out PROF_MAGIC_ITERATOR (some it) none
    else
      let changed : Bool :=
        match files[it.fileIdx]? with
        | some f => f.upd_serial != it.file_serial
        | none => true
      if !it.node.isEmpty && changed then
        iterResolve files
          { it with flags := { it.flags with final_seen := false }, node := [] }
          it.num
      else iterResolve files it 0

/-- Run the iterator to completion (bounded by `fuel` calls), collecting the
yielded nodes; stops at the end sentinel, any error, or a hang. -/
def runIter (files : List PrfFile) : Nat → Option ProfileIterator → List PNode
  | 0, _ => []
  | fuel + 1, h =>
    match profile_node_iterator files h with
    | .out 0 h' (some (p, _, _)) => p :: runIter files fuel h'
    | _ => []

/-- The handle `*iter_p` after a call. -/
def IterOut.nextHandle : IterOut → Option ProfileIterator
  | .out _ h _ => h
  | .hang => none

/-- The yielded value (`*ret_value`) of a successful non-sentinel call. -/
def IterOut.yieldValue : IterOut → Option String
  | .out e _ (some (_, _, v)) => if e = 0 then v else none
  | _ => none

/-- Specification-side description of the full yield sequence, for comparison
with `runIter`: sources contribute in list order; a source that fails to
resolve contributes nothing; a resolved source contributes its resolved
section's qualifying children in sibling order; a source whose resolution
traversed a `final` section is the last consulted; and a source resolving to
a childless section with no final flag seen stops the run (the source's
`while (iter->node == 0)` loop never terminates there, see `IterOut.hang`). -/
def expectedYields (fl : IterFlags) (comps : List String) (filt : Option String) :
    List PrfFile → List PNode
  | [] => []
  | f :: fs =>
    let res := resolvePath f.root comps
    match res.1 with
    | none =>
      if res.2 then [] else expectedYields fl comps filt fs
    | some sec =>
      let ys := sec.children.filter (qualifies filt fl)
      if res.2 then ys
      else if sec.children.isEmpty then []
      else ys ++ expectedYields fl comps filt fs

/-- Well-formedness of a live in-flight iterator state over a static source
chain: the tag is live, the stored path still decomposes into the walked
components and the name filter, the caller's kind-filter bits are intact, and
a set cursor carries the filter as its active name and a generation snapshot
matching the file it points into. -/
def IterWF (files : List PrfFile) (fl : IterFlags) (comps : List String)
    (filt : Option String) (it : ProfileIterator) : Prop :=
  it.magic = PROF_MAGIC_ITERATOR ∧
  pathComponents it.done_idx it.names = (comps, filt) ∧
  it.flags.sections_only = fl.sections_only ∧
  it.flags.relations_only = fl.relations_only ∧
  (it.node.isEmpty = false →
    it.name = filt ∧
    ∃ f, files[it.fileIdx]? = some f ∧ f.upd_serial = it.file_serial)

/-- The yields still to come from an in-flight iterator state: the qualifying
part of the current cursor suffix, then (unless a final section was already
seen) the contributions of the sources not yet consulted. -/
def remIt (files : List PrfFile) (fl : IterFlags) (comps : List String)
    (filt : Option String) (it : ProfileIterator) : List PNode :=
  it.node.filter (qualifies filt fl)
    ++ (if it.flags.final_seen then []
        else expectedYields fl comps filt
          (files.drop (if it.node.isEmpty then it.fileIdx else it.fileIdx + 1)))

/-! ## Operation sequences over a tree

C callers hold a direct pointer to the section they mutate; the list-tree
model addresses the target section by a child-index path from the root and
rebuilds the spine.  This supports stating invariant preservation over
arbitrary sequences of mutations. -/

/-- One mutation of the tree: `profile_add_node` or `profile_remove_node`
applied at the section reached by `path`. -/
inductive TreeOp where
  | addOp (path : List Nat) (name : String) (value : Option String)
  | removeOp (path : List Nat) (name : String) (section_flag : Bool)

/-- Apply `f` to the node reached by the child-index path, rebuilding the
spine. -/
def modifyAt (f : PNode → Except Nat PNode) : List Nat → PNode → Except Nat PNode
  | [], node => f node
  | i :: rest, node =>
    match node.children[i]? with
    | none => .error MODEL_BAD_PATH
    | some c =>
      match modifyAt f rest c with
      | .error e => .error e
      | .ok c' => .ok (node.withChildren (node.children.set i c'))

/-- Apply one `TreeOp` to the root. -/
def applyOp : TreeOp → PNode → Except Nat PNode
  | .addOp path name value, root =>
    modifyAt (fun s => (profile_add_node s name value).map Prod.fst) path root
  | .removeOp path name flag, root =>
    modifyAt (fun s => profile_remove_node s name flag) path root

/-- Apply a sequence of `TreeOp`s, stopping at the first failure. -/
def applyOps : List TreeOp → PNode → Except Nat PNode
  | [], root => .ok root
  | op :: rest, root =>
    match applyOp op root with
    | .error e => .error e
    | .ok root' => applyOps rest root'

/-! ## Concrete fixtures used by the examples, counterexamples and witnesses -/

/-- A fresh iterator for the path `names` in default (terminal-name) mode, as
`profile_node_iterator_create` builds it. -/
def mkIt0 (names : List String) : ProfileIterator :=
  { magic := PROF_MAGIC_ITERATOR, flags := {}, names := names, name := none,
    fileIdx := 0, file_serial := 0, done_idx := 1, node := [], num := 0 }

/-- Source 1 of the spec's final-suppression example: section `a` marked
final, containing `k = 1`. -/
def c1k1 : PNode := .mk PROF_MAGIC_NODE "k" (some "1") 2 false []

def c1a1 : PNode := .mk PROF_MAGIC_NODE "a" none 1 true [c1k1]

def c1root1 : PNode := .mk PROF_MAGIC_NODE "" none 0 false [c1a1]

/-- Source 2 of the example: section `a` (not final) containing `k = 2`. -/
def c1k2 : PNode := .mk PROF_MAGIC_NODE "k" (some "2") 2 false []

def c1a2 : PNode := .mk PROF_MAGIC_NODE "a" none 1 false [c1k2]

def c1root2 : PNode := .mk PROF_MAGIC_NODE "" none 0 false [c1a2]

def c1files : List PrfFile := [⟨c1root1, 1⟩, ⟨c1root2, 1⟩]

def c1it0 : ProfileIterator := mkIt0 ["a", "k"]

/-- A section holding a single subsection named `n` (and no relation `n`). -/
def c2sub : PNode := .mk PROF_MAGIC_NODE "n" none 1 false []

def c2sec : PNode := .mk PROF_MAGIC_NODE "s" none 0 false [c2sub]

def c3sub : PNode := .mk PROF_MAGIC_NODE "n" none 1 false []

def c3rel : PNode := .mk PROF_MAGIC_NODE "n" (some "v") 1 false []

/-- Subsection `n` positioned before relation `n`. -/
def c3secSR : PNode := .mk PROF_MAGIC_NODE "s" none 0 false [c3sub, c3rel]

/-- Relation `n` positioned before subsection `n` (the spec example's
order as `profile_add_node` would produce inserting the relation first). -/
def c3secRS : PNode := .mk PROF_MAGIC_NODE "s" none 0 false [c3rel, c3sub]

def c5relC : PNode := .mk PROF_MAGIC_NODE "c" (some "1") 1 false []

def c5relA : PNode := .mk PROF_MAGIC_NODE "a" (some "2") 1 false []

/-- A section satisfying invariants 1-4 whose children are not name-sorted
(buildable directly, not through `profile_add_node`). -/
def c5secCA : PNode := .mk PROF_MAGIC_NODE "s" none 0 false [c5relC, c5relA]

def c5empty : PNode := .mk PROF_MAGIC_NODE "s" none 0 false []

/-- The insertion sequence b, a, b, c of the spec's sorted-insert example
(distinct values so the two `b` nodes can be told apart). -/
def c5ops : List TreeOp :=
  [.addOp [] "b" (some "1"), .addOp [] "a" (some "2"),
   .addOp [] "b" (some "3"), .addOp [] "c" (some "4")]

/-- The node created by inserting `b = 1` under the empty section. -/
def c5newB : PNode := .mk PROF_MAGIC_NODE "b" (some "1") 1 false []

def c5secB : PNode := .mk PROF_MAGIC_NODE "s" none 0 false [c5newB]

def c6x1 : PNode := .mk PROF_MAGIC_NODE "x" (some "1") 1 false []

def c6y9 : PNode := .mk PROF_MAGIC_NODE "y" (some "9") 1 false []

def c6subX : PNode := .mk PROF_MAGIC_NODE "x" none 1 false []

def c6x2 : PNode := .mk PROF_MAGIC_NODE "x" (some "2") 1 false []

def c6subZ : PNode := .mk PROF_MAGIC_NODE "z" none 1 false []

def c6x3 : PNode := .mk PROF_MAGIC_NODE "x" (some "3") 1 false []

/-- Three relations named `x` (values 1, 2, 3) interleaved with a relation of
another name, a subsection named `x` and a subsection of another name. -/
def c6sec : PNode :=
  .mk PROF_MAGIC_NODE "s" none 0 false [c6x1, c6y9, c6subX, c6x2, c6subZ, c6x3]

def c7root : PNode := .mk PROF_MAGIC_NODE "" none 0 false []

def c7ops : List TreeOp :=
  [.addOp [] "a" (some "1"), .addOp [] "b" none,
   .addOp [1] "c" (some "2"), .removeOp [] "a" false]

def c7final : PNode :=
  .mk PROF_MAGIC_NODE "" none 0 false
    [.mk PROF_MAGIC_NODE "b" none 1 false
      [.mk PROF_MAGIC_NODE "c" (some "2") 2 false []]]

def c8rel : PNode := .mk PROF_MAGIC_NODE "k" (some "v") 1 false []

/-- A node whose magic tag is dead (freed / corrupted handle). -/
def c8bad : PNode := .mk 0 "s" none 0 false [c8rel]

/-- An iterator positioned past the end of the source chain. -/
def c9it : ProfileIterator :=
  { magic := PROF_MAGIC_ITERATOR, flags := {}, names := ["a", "k"], name := none,
    fileIdx := 7, file_serial := 0, done_idx := 1, node := [], num := 3 }

/-- C4 scenario, source 1: `a` (not final) containing `k = 1`. -/
def c4k1 : PNode := .mk PROF_MAGIC_NODE "k" (some "1") 2 false []

def c4a1 : PNode := .mk PROF_MAGIC_NODE "a" none 1 false [c4k1]

def c4root1 : PNode := .mk PROF_MAGIC_NODE "" none 0 false [c4a1]

/-- C4 scenario, source 2 before reload: `a` containing `k = 2`, `k = 3`. -/
def c4k2 : PNode := .mk PROF_MAGIC_NODE "k" (some "2") 2 false []

def c4k3 : PNode := .mk PROF_MAGIC_NODE "k" (some "3") 2 false []

def c4a2 : PNode := .mk PROF_MAGIC_NODE "a" none 1 false [c4k2, c4k3]

def c4root2 : PNode := .mk PROF_MAGIC_NODE "" none 0 false [c4a2]

/-- C4 scenario, source 2 after reload (generation bumped to 2): `a`
containing `k = 2x`, `k = 3x`, `k = 4x`. -/
def c4k2x : PNode := .mk PROF_MAGIC_NODE "k" (some "2x") 2 false []

def c4k3x : PNode := .mk PROF_MAGIC_NODE "k" (some "3x") 2 false []

def c4k4x : PNode := .mk PROF_MAGIC_NODE "k" (some "4x") 2 false []

def c4a2x : PNode := .mk PROF_MAGIC_NODE "a" none 1 false [c4k2x, c4k3x, c4k4x]

def c4root2x : PNode := .mk PROF_MAGIC_NODE "" none 0 false [c4a2x]

def c4filesA : List PrfFile := [⟨c4root1, 1⟩, ⟨c4root2, 1⟩]

def c4filesB : List PrfFile := [⟨c4root1, 1⟩, ⟨c4root2x, 2⟩]

def c4it0 : ProfileIterator := mkIt0 ["a", "k"]

/-- The iterator state after the first advance call on `c4filesA`: `k = 1`
was yielded, the cursor was exhausted so the file moved on, one scan loop
completed. -/
def c4it1 : ProfileIterator :=
  { magic := PROF_MAGIC_ITERATOR, flags := {}, names := ["a", "k"],
    name := some "k", fileIdx := 1, file_serial := 1, done_idx := 1,
    node := [], num := 1 }

/-- The iterator state after yielding `1` from source 1 and `2` from source 2
of `c4filesA` (as the two advance calls leave it: cursor on `k = 3`,
generation snapshot 1, `num` = 2 completed scans). -/
def c4staleIt : ProfileIterator :=
  { magic := PROF_MAGIC_ITERATOR, flags := {}, names := ["a", "k"],
    name := some "k", fileIdx := 1, file_serial := 1, done_idx := 1,
    node := [c4k3], num := 2 }

/-- C10 source 1: resolves (section `a` exists) but holds no relation `k`,
so its scan loop completes without a find. -/
def c10z : PNode := .mk PROF_MAGIC_NODE "z" (some "9") 2 false []

def c10a1 : PNode := .mk PROF_MAGIC_NODE "a" none 1 false [c10z]

def c10root1 : PNode := .mk PROF_MAGIC_NODE "" none 0 false [c10a1]

def c10files : List PrfFile := [⟨c10root1, 1⟩, ⟨c4root2, 1⟩]

def c10it0 : ProfileIterator := mkIt0 ["a", "k"]

def c10v : Nat → PNode := fun i =>
  .mk PROF_MAGIC_NODE "k" (some (toString i)) 2 false []

/-- A reloaded source whose section `a` holds seven relations `k`. -/
def c10a7 : PNode :=
  .mk PROF_MAGIC_NODE "a" none 1 false
    [c10v 1, c10v 2, c10v 3, c10v 4, c10v 5, c10v 6, c10v 7]

def c10root7 : PNode := .mk PROF_MAGIC_NODE "" none 0 false [c10a7]

def c10staleFiles : List PrfFile := [⟨c10root7, 2⟩]

/-- An iterator that has completed five scans (over any earlier sources and
the current one) and holds a cursor whose generation snapshot is stale. -/
def c10staleIt : ProfileIterator :=
  { magic := PROF_MAGIC_ITERATOR, flags := {}, names := ["a", "k"],
    name := some "k", fileIdx := 0, file_serial := 1, done_idx := 1,
    node := [c4k1], num := 5 }

/-! ## Projection lemmas -/

@[simp] theorem PNode.magic_mk (m : Nat) (n : String) (v : Option String)
    (g : Int) (f : Bool) (c : List PNode) : (PNode.mk m n v g f c).magic = m := rfl

@[simp] theorem PNode.name_mk (m : Nat) (n : String) (v : Option String)
    (g : Int) (f : Bool) (c : List PNode) : (PNode.mk m n v g f c).name = n := rfl

@[simp] theorem PNode.value_mk (m : Nat) (n : String) (v : Option String)
    (g : Int) (f : Bool) (c : List PNode) : (PNode.mk m n v g f c).value = v := rfl

@[simp] theorem PNode.group_level_mk (m : Nat) (n : String) (v : Option String)
    (g : Int) (f : Bool) (c : List PNode) : (PNode.mk m n v g f c).group_level = g := rfl

@[simp] theorem PNode.final_mk (m : Nat) (n : String) (v : Option String)
    (g : Int) (f : Bool) (c : List PNode) : (PNode.mk m n v g f c).children = c := rfl

@[simp] theorem PNode.children_withChildren (x : PNode) (c : List PNode) :
    (x.withChildren c).children = c := by cases x; rfl

@[simp] theorem PNode.magic_withChildren (x : PNode) (c : List PNode) :
    (x.withChildren c).magic = x.magic := by cases x; rfl

@[simp] theorem PNode.name_withChildren (x : PNode) (c : List PNode) :
    (x.withChildren c).name = x.name := by cases x; rfl

@[simp] theorem PNode.value_withChildren (x : PNode) (c : List PNode) :
    (x.withChildren c).value = x.value := by cases x; rfl

@[simp] theorem PNode.group_level_withChildren (x : PNode) (c : List PNode) :
    (x.withChildren c).group_level = x.group_level := by cases x; rfl

/-! ## Lemmas about `findFirstRelSplit` and `removeRun` -/

theorem findFirstRelSplit_eq_none_iff (name : String) (l : List PNode) :
    findFirstRelSplit name l = none ↔
      ∀ c ∈ l, (c.name == name && c.value.isSome) = false := by
  induction l with
  | nil =>
    constructor
    · intro _ c hc; cases hc
    · intro _; rfl
  | cons p rest ih =>
    simp only [findFirstRelSplit]
    by_cases h : (p.name == name && p.value.isSome) = true
    · rw [if_pos h]
      constructor
      · intro hcon; cases hcon
      · intro hall
        have := hall p (List.mem_cons_self p rest)
        rw [h] at this; cases this
    · rw [if_neg h]
      rw [Bool.not_eq_true] at h
      cases hr : findFirstRelSplit name rest with
      | none =>
        constructor
        · intro _ c hc
          rcases List.mem_cons.mp hc with hc | hc
          · rwa [hc]
          · exact (ih.mp hr) c hc
        · intro _; rfl
      | some ps =>
        cases ps with
        | mk pre suf =>
          constructor
          · intro hcon; cases hcon
          · intro hall
            have hnone : findFirstRelSplit name rest = none :=
              ih.mpr (fun c hc => hall c (List.mem_cons_of_mem p hc))
            rw [hnone] at hr; cases hr

theorem findFirstRelSplit_some (name : String) :
    ∀ (l pre suf : List PNode), findFirstRelSplit name l = some (pre, suf) →
      pre ++ suf = l ∧ (∀ c ∈ pre, (c.name == name && c.value.isSome) = false) ∧
      ∃ p rest, suf = p :: rest ∧ (p.name == name && p.value.isSome) = true := by
  intro l
  induction l with
  | nil => intro pre suf h; simp [findFirstRelSplit] at h
  | cons p rest ih =>
    intro pre suf h
    by_cases hp : (p.name == name && p.value.isSome) = true
    · simp [findFirstRelSplit, hp] at h
      obtain ⟨hpre, hsuf⟩ := h
      subst hpre; subst hsuf
      exact ⟨rfl, by simp, p, rest, rfl, hp⟩
    · rw [Bool.not_eq_true] at hp
      simp only [findFirstRelSplit, hp, Bool.false_eq_true, if_false] at h
      cases hr : findFirstRelSplit name rest with
      | none => rw [hr] at h; cases h
      | some ps =>
        cases ps with
        | mk pre' suf' =>
          rw [hr] at h
          simp only [Option.some.injEq, Prod.mk.injEq] at h
          obtain ⟨hpre, hsuf⟩ := h
          obtain ⟨heq, hall, hex⟩ := ih pre' suf' hr
          subst hpre; subst hsuf
          refine ⟨by simp [heq], ?_, hex⟩
          intro c hc
          rcases List.mem_cons.mp hc with hc | hc
          · exact hc ▸ hp
          · exact hall c hc

theorem removeRun_cons_keep (name : String) (flag : Bool) (p : PNode) (rest : List PNode)
    (hn : (p.name == name) = true)
    (hk : ((flag && p.value.isSome) || (!flag && !p.value.isSome)) = true) :
    removeRun name flag (p :: rest) = p :: removeRun name flag rest := by
  simp only [removeRun]
  rw [if_pos hn, if_pos hk]

theorem removeRun_cons_del (name : String) (flag : Bool) (p : PNode) (rest : List PNode)
    (hn : (p.name == name) = true)
    (hk : ((flag && p.value.isSome) || (!flag && !p.value.isSome)) = false) :
    removeRun name flag (p :: rest) = removeRun name flag rest := by
  simp only [removeRun]
  rw [if_pos hn, if_neg (by rw [hk]; exact Bool.false_ne_true)]

theorem removeRun_cons_stop (name : String) (flag : Bool) (p : PNode) (rest : List PNode)
    (hn : (p.name == name) = false) :
    removeRun name flag (p :: rest) = p :: rest := by
  simp only [removeRun]
  rw [if_neg (by rw [hn]; exact Bool.false_ne_true)]

theorem removeRun_sublist (name : String) (flag : Bool) :
    ∀ l : List PNode, (removeRun name flag l).Sublist l := by
  intro l
  induction l with
  | nil => simp [removeRun]
  | cons p rest ih =>
    simp only [removeRun]
    split
    · split
      · exact ih.cons₂ p
      · exact ih.cons p
    · exact List.Sublist.refl _

theorem removeRun_true_filter (name : String) :
    ∀ l : List PNode,
      (removeRun name true l).filter (fun c => c.value.isSome)
        = l.filter (fun c => c.value.isSome) := by
  intro l
  induction l with
  | nil => rfl
  | cons p rest ih =>
    by_cases hn : (p.name == name) = true
    · cases hv : p.value.isSome with
      | true =>
        rw [removeRun_cons_keep name true p rest hn (by rw [hv]; rfl)]
        rw [List.filter_cons_of_pos (by rw [hv]), List.filter_cons_of_pos (by rw [hv]), ih]
      | false =>
        rw [removeRun_cons_del name true p rest hn (by rw [hv]; rfl)]
        rw [List.filter_cons_of_neg (by rw [hv]; exact Bool.false_ne_true), ih]
    · rw [Bool.not_eq_true] at hn
      rw [removeRun_cons_stop name true p rest hn]

theorem removeRun_false_filter (name : String) :
    ∀ l : List PNode,
      (removeRun name false l).filter (fun c => !c.value.isSome)
        = l.filter (fun c => !c.value.isSome) := by
  intro l
  induction l with
  | nil => rfl
  | cons p rest ih =>
    by_cases hn : (p.name == name) = true
    · cases hv : p.value.isSome with
      | true =>
        rw [removeRun_cons_del name false p rest hn (by rw [hv]; rfl)]
        rw [List.filter_cons_of_neg (by rw [hv]; simp), ih]
      | false =>
        rw [removeRun_cons_keep name false p rest hn (by rw [hv]; rfl)]
        rw [List.filter_cons_of_pos (by rw [hv]; rfl),
            List.filter_cons_of_pos (by rw [hv]; rfl), ih]
    · rw [Bool.not_eq_true] at hn
      rw [removeRun_cons_stop name false p rest hn]

/-! ## C2 -/

/-- C2 counterexample: the claim says remove fails with NotFound exactly when
*zero* direct children bear the name; `c2sec` has one child named `n` (a
subsection), yet `profile_remove_node` returns `PROF_NO_RELATION` for both
kinds, because its existence loop (lines 328-331) demands a name-matching
*relation*. -/
theorem c2_remove_notfound_counterexample :
    (c2sec.children.filter (fun c => c.name == "n")).length = 1 ∧
    profile_remove_node c2sec "n" true = .error PROF_NO_RELATION ∧
    profile_remove_node c2sec "n" false = .error PROF_NO_RELATION :=
  ⟨rfl, rfl, rfl⟩

/-- C2 (amended): `profile_remove_node` fails with `PROF_NO_RELATION` exactly
when no direct child is a *relation* with the given name (regardless of
`section_flag`), and that is its only error; when a name-matching relation
exists the call succeeds even if the kind-filtered deletion pass removes
nothing. -/
theorem c2_remove_notfound_amended (sec : PNode) (name : String) (flag : Bool) :
    (profile_remove_node sec name flag = .error PROF_NO_RELATION ↔
      ∀ c ∈ sec.children, (c.name == name && c.value.isSome) = false) ∧
    (∀ e, profile_remove_node sec name flag = .error e → e = PROF_NO_RELATION) := by
  constructor
  · unfold profile_remove_node
    cases hr : findFirstRelSplit name sec.children with
    | none =>
      simp only [hr]
      constructor
      · intro _
        exact (findFirstRelSplit_eq_none_iff name sec.children).mp hr
      · intro _
        trivial
    | some ps =>
      cases ps with
      | mk pre suf =>
        simp only [hr]
        constructor
        · intro hcon; cases hcon
        · intro hall
          have : findFirstRelSplit name sec.children = none :=
            (findFirstRelSplit_eq_none_iff name sec.children).mpr hall
          rw [this] at hr; cases hr
  · intro e he
    unfold profile_remove_node at he
    cases hr : findFirstRelSplit name sec.children with
    | none =>
      rw [hr] at he
      exact (Except.error.inj he).symm
    | some ps => cases ps; rw [hr] at he; cases he

/-- C2 witness. -/
theorem c2_remove_notfound_amended_witness :
    profile_remove_node c2sec "n" true = .error PROF_NO_RELATION :=
  (c2_remove_notfound_amended c2sec "n" true).1.mpr (by decide)

/-! ## C8 -/

/-- C8 counterexample: `c8bad` carries a dead magic tag, yet
`profile_remove_node` happily walks and mutates it (no entry check, lines
321-357), `profile_get_node_parent` succeeds unconditionally (lines 362-367)
and `profile_is_node_final` reads the flag with no check (lines 196-200) —
none of them returns the InvalidHandle-class error. -/
theorem c8_magic_check_counterexample :
    c8bad.magic ≠ PROF_MAGIC_NODE ∧
    profile_remove_node c8bad "k" false = .ok (c8bad.withChildren []) ∧
    (profile_get_node_parent c8bad none).1 = 0 ∧
    profile_is_node_final c8bad = false :=
  ⟨by decide, rfl, rfl, rfl⟩

/-- C8 (amended): most entry points do validate the magic tag
(`profile_verify_node`, `profile_add_node`, `profile_make_node_final`, both
scanners, and the iterator entry points), but `profile_remove_node`,
`profile_get_node_parent` and `profile_is_node_final` perform no such check:
remove can only fail with `PROF_NO_RELATION`, and getParent always succeeds. -/
theorem c8_magic_check_amended :
    (∀ node : PNode, node.magic ≠ PROF_MAGIC_NODE →
      profile_verify_node node = PROF_MAGIC_NODE ∧
      (∀ name value, profile_add_node node name value = .error PROF_MAGIC_NODE) ∧
      profile_make_node_final node = .error PROF_MAGIC_NODE ∧
      (∀ name state, (profile_find_node_relation node name state).err = PROF_MAGIC_NODE) ∧
      (∀ name state, (profile_find_node_subsection node name state).err = PROF_MAGIC_NODE)) ∧
    (∀ files (it : ProfileIterator), it.magic ≠ PROF_MAGIC_ITERATOR →
      profile_node_iterator files (some it) = .out PROF_MAGIC_ITERATOR (some it) none ∧
      profile_node_iterator_free (some it) = some it) ∧
    (∀ sec name flag, profile_remove_node sec name flag ≠ .error PROF_MAGIC_NODE) ∧
    (∀ sec parent, profile_get_node_parent sec parent = (0, parent)) := by
  refine ⟨?_, ?_, ?_, fun _ _ => rfl⟩
  · intro node h
    refine ⟨?_, ?_, ?_, ?_, ?_⟩
    · cases node with
      | mk m n v g f c =>
        simp only [PNode.magic_mk] at h
        simp only [profile_verify_node]
        rw [if_pos h]
    · intro name value
      simp only [profile_add_node]
      rw [if_pos h]
    · simp only [profile_make_node_final]
      rw [if_pos h]
    · intro name state
      cases state with
      | nil =>
        simp only [profile_find_node_relation]
        rw [if_pos h]
      | cons p rest =>
        simp only [profile_find_node_relation]
        rw [if_pos h]
    · intro name state
      cases state with
      | nil =>
        simp only [profile_find_node_subsection]
        rw [if_pos h]
      | cons p rest =>
        simp only [profile_find_node_subsection]
        rw [if_pos h]
  · intro files it h
    constructor
    · simp only [profile_node_iterator]
      rw [if_pos h]
    · simp only [profile_node_iterator_free]
      rw [if_pos h]
  · intro sec name flag
    unfold profile_remove_node
    cases hr : findFirstRelSplit name sec.children with
    | none =>
      simp only [hr]
      intro hcon
      exact absurd (Except.error.inj hcon) (by decide)
    | some ps =>
      cases ps with
      | mk pre suf =>
        simp only [hr]
        intro hcon
        cases hcon

/-- C8 witness. -/
theorem c8_magic_check_amended_witness :
    profile_verify_node c8bad = PROF_MAGIC_NODE :=
  ((c8_magic_check_amended.1 c8bad (by decide)).1)

/-! ## Order lemmas for `charListLt` / `strGt` -/

theorem charListLt_irrefl : ∀ l : List Char, charListLt l l = false := by
  intro l
  induction l with
  | nil => rfl
  | cons a as ih =>
    simp only [charListLt]
    rw [if_neg (lt_irrefl a.toNat), if_neg (lt_irrefl a.toNat)]
    exact ih

theorem charListLt_trans :
    ∀ {a b c : List Char}, charListLt a b = true → charListLt b c = true →
      charListLt a c = true := by
  intro a
  induction a with
  | nil =>
    intro b c hab hbc
    cases b with
    | nil => cases hab
    | cons y ys =>
      cases c with
      | nil => cases hbc
      | cons z zs => rfl
  | cons x xs ih =>
    intro b c hab hbc
    cases b with
    | nil => cases hab
    | cons y ys =>
      cases c with
      | nil => cases hbc
      | cons z zs =>
        simp only [charListLt] at hab hbc ⊢
        by_cases hxy : x.toNat < y.toNat
        · by_cases hyz : y.toNat < z.toNat
          · rw [if_pos (Nat.lt_trans hxy hyz)]
          · rw [if_neg hyz] at hbc
            by_cases hzy : z.toNat < y.toNat
            · rw [if_pos hzy] at hbc; cases hbc
            · have hyz' : y.toNat = z.toNat := Nat.le_antisymm (Nat.le_of_not_lt hzy) (Nat.le_of_not_lt hyz)
              rw [if_pos (hyz' ▸ hxy)]
        · rw [if_neg hxy] at hab
          by_cases hyx : y.toNat < x.toNat
          · rw [if_pos hyx] at hab; cases hab
          · have hxy' : x.toNat = y.toNat := Nat.le_antisymm (Nat.le_of_not_lt hyx) (Nat.le_of_not_lt hxy)
            rw [if_neg hyx] at hab
            by_cases hyz : y.toNat < z.toNat
            · rw [if_pos (hxy' ▸ hyz)]
            · by_cases hzy : z.toNat < y.toNat
              · rw [if_neg hyz, if_pos hzy] at hbc; cases hbc
              · rw [if_neg hyz, if_neg hzy] at hbc
                rw [if_neg (hxy' ▸ hyz), if_neg (fun h => hzy (hxy' ▸ h))]
                exact ih hab hbc

theorem charListLt_connex :
    ∀ {a b : List Char}, charListLt a b = false → charListLt b a = false → a = b := by
  intro a
  induction a with
  | nil =>
    intro b hab _
    cases b with
    | nil => rfl
    | cons y ys => cases hab
  | cons x xs ih =>
    intro b hab hba
    cases b with
    | nil => cases hba
    | cons y ys =>
      simp only [charListLt] at hab hba
      by_cases hxy : x.toNat < y.toNat
      · rw [if_pos hxy] at hab; cases hab
      · by_cases hyx : y.toNat < x.toNat
        · rw [if_pos hyx] at hba; cases hba
        · rw [if_neg hxy, if_neg hyx] at hab
          rw [if_neg hyx, if_neg hxy] at hba
          have hx : x = y :=
            Char.eq_of_val_eq (UInt32.ext
              (Nat.le_antisymm (Nat.le_of_not_lt hyx) (Nat.le_of_not_lt hxy)))
          rw [hx, ih hab hba]

theorem charListLt_tri (a b : List Char) :
    charListLt a b = true ∨ charListLt b a = true ∨ a = b := by
  cases hab : charListLt a b with
  | true => exact Or.inl rfl
  | false =>
    cases hba : charListLt b a with
    | true => exact Or.inr (Or.inl rfl)
    | false => exact Or.inr (Or.inr (charListLt_connex hab hba))

/-- From `n < p` and `p ≤ q` conclude `n < q` (stated on the Bool order). -/
theorem charListLt_of_lt_of_not_lt {n p q : List Char}
    (h1 : charListLt n p = true) (h2 : charListLt q p = false) :
    charListLt n q = true := by
  rcases charListLt_tri n q with h | h | h
  · exact h
  · exact absurd (charListLt_trans h h1) (by rw [h2]; exact Bool.false_ne_true)
  · rw [← h] at h2; rw [h1] at h2; cases h2

theorem string_data_inj {a b : String} (h : a.data = b.data) : a = b := by
  cases a; cases b; exact congrArg String.mk h

theorem removeRun_sorted_false (name : String) :
    ∀ l : List PNode,
      l.Pairwise (fun a b => strGt a.name b.name = false) →
      (∀ x ∈ l, strGt name x.name = false) →
      removeRun name false l
        = l.filter (fun c => !(c.name == name && c.value.isSome)) := by
  intro l
  induction l with
  | nil => intro _ _; rfl
  | cons p rest ih =>
    intro hsort hge
    have hrel := (List.pairwise_cons.mp hsort).1
    have hsort' := (List.pairwise_cons.mp hsort).2
    have hge' : ∀ x ∈ rest, strGt name x.name = false :=
      fun x hx => hge x (List.mem_cons_of_mem p hx)
    by_cases hn : (p.name == name) = true
    · cases hv : p.value.isSome with
      | true =>
        rw [removeRun_cons_del name false p rest hn (by rw [hv]; rfl)]
        rw [List.filter_cons_of_neg (by rw [hn, hv]; simp)]
        exact ih hsort' hge'
      | false =>
        rw [removeRun_cons_keep name false p rest hn (by rw [hv]; rfl)]
        rw [List.filter_cons_of_pos (by rw [hn, hv]; rfl)]
        rw [ih hsort' hge']
    · rw [Bool.not_eq_true] at hn
      rw [removeRun_cons_stop name false p rest hn]
      rw [List.filter_cons_of_pos (by rw [hn]; rfl)]
      congr 1
      symm
      rw [List.filter_eq_self]
      intro x hx
      have hpn : p.name ≠ name := by
        intro hc
        rw [hc] at hn
        rw [beq_self_eq_true] at hn
        cases hn
      have hplt : charListLt name.data p.name.data = true := by
        rcases charListLt_tri name.data p.name.data with h | h | h
        · exact h
        · have hgp := hge p (List.mem_cons_self p rest)
          simp only [strGt] at hgp
          rw [hgp] at h
          cases h
        · exact absurd (string_data_inj h).symm hpn
      have hxp : charListLt x.name.data p.name.data = false := hrel x hx
      have hnx : charListLt name.data x.name.data = true :=
        charListLt_of_lt_of_not_lt hplt hxp
      have hxn : x.name ≠ name := by
        intro hc
        rw [hc] at hnx
        rw [charListLt_irrefl] at hnx
        cases hnx
      rw [beq_eq_false_iff_ne.mpr hxn]
      rfl

/-- Inversion of a successful `profile_remove_node`. -/
theorem profile_remove_node_ok {sec : PNode} {name : String} {flag : Bool} {sec' : PNode}
    (h : profile_remove_node sec name flag = .ok sec') :
    ∃ pre suf, findFirstRelSplit name sec.children = some (pre, suf) ∧
      sec' = sec.withChildren (pre ++ removeRun name flag suf) := by
  unfold profile_remove_node at h
  cases hr : findFirstRelSplit name sec.children with
  | none => rw [hr] at h; cases h
  | some ps =>
    cases ps with
    | mk pre suf =>
      rw [hr] at h
      exact ⟨pre, suf, rfl, (Except.ok.inj h).symm⟩

/-! ## C3 -/

/-- C3 counterexample: in `c3secSR` the subsection `n` precedes the relation
`n`; a *successful* remove of subsections named `n` (`section_flag` set)
removes nothing at all — the deletion loop starts at the first name-matching
relation (lines 328-331), never visiting the subsection before it. -/
theorem c3_remove_kind_counterexample :
    profile_remove_node c3secSR "n" true = .ok c3secSR ∧
    c3secSR.children.any (fun c => c.name == "n" && !c.value.isSome) = true :=
  ⟨rfl, rfl⟩

/-- C3 (amended): the deletion pass covers only the contiguous run of
name-matching children starting at the first name-matching relation.  Hence:
removing relations from a name-sorted section removes exactly the
name-matching relations; for either kind the result is a sublist of the
original children and every child of the opposite kind survives; but a
kind-matching child placed before the first name-matching relation (only
possible for subsections) is not removed — see the counterexample.  On the
order `relation n, subsection n` the spec's example behaves as stated. -/
theorem c3_remove_kind_amended :
    (∀ (sec : PNode) (name : String) (sec' : PNode),
      sec.children.Pairwise (fun a b => strGt a.name b.name = false) →
      profile_remove_node sec name false = .ok sec' →
      sec'.children = sec.children.filter (fun c => !(c.name == name && c.value.isSome))) ∧
    (∀ (sec : PNode) (name : String) (flag : Bool) (sec' : PNode),
      profile_remove_node sec name flag = .ok sec' →
      sec'.children.Sublist sec.children) ∧
    (∀ (sec : PNode) (name : String) (sec' : PNode),
      profile_remove_node sec name true = .ok sec' →
      sec'.children.filter (fun c => c.value.isSome)
        = sec.children.filter (fun c => c.value.isSome)) ∧
    (∀ (sec : PNode) (name : String) (sec' : PNode),
      profile_remove_node sec name false = .ok sec' →
      sec'.children.filter (fun c => !c.value.isSome)
        = sec.children.filter (fun c => !c.value.isSome)) ∧
    profile_remove_node c3secRS "n" true = .ok (c3secRS.withChildren [c3rel]) ∧
    profile_remove_node c3secRS "n" false = .ok (c3secRS.withChildren [c3sub]) := by
  refine ⟨?_, ?_, ?_, ?_, rfl, rfl⟩
  · intro sec name sec' hsort hok
    obtain ⟨pre, suf, hsplit, hsec'⟩ := profile_remove_node_ok hok
    obtain ⟨happ, hpre, p, r, hsuf, hp⟩ := findFirstRelSplit_some name sec.children pre suf hsplit
    subst hsec'
    rw [PNode.children_withChildren]
    have hpn : p.name = name := eq_of_beq (Bool.and_elim_left hp)
    have hsortsuf : suf.Pairwise (fun a b => strGt a.name b.name = false) := by
      have := hsort
      rw [← happ] at this
      exact (List.pairwise_append.mp this).2.1
    have hge : ∀ x ∈ suf, strGt name x.name = false := by
      intro x hx
      rw [hsuf] at hx hsortsuf
      rcases List.mem_cons.mp hx with hxp | hxr
      · subst hxp
        simp only [strGt, hpn]
        exact charListLt_irrefl name.data
      · have hxlt := (List.pairwise_cons.mp hsortsuf).1 x hxr
        simp only [strGt] at hxlt ⊢
        rw [hpn] at hxlt
        exact hxlt
    rw [removeRun_sorted_false name suf hsortsuf hge]
    have hprefilter :
        pre.filter (fun c => !(c.name == name && c.value.isSome)) = pre := by
      rw [List.filter_eq_self]
      intro x hx
      rw [hpre x hx]
      rfl
    rw [← happ, List.filter_append, hprefilter]
  · intro sec name flag sec' hok
    obtain ⟨pre, suf, hsplit, hsec'⟩ := profile_remove_node_ok hok
    obtain ⟨happ, _, _⟩ := findFirstRelSplit_some name sec.children pre suf hsplit
    subst hsec'
    rw [PNode.children_withChildren, ← happ]
    exact (removeRun_sublist name flag suf).append_left pre
  · intro sec name sec' hok
    obtain ⟨pre, suf, hsplit, hsec'⟩ := profile_remove_node_ok hok
    obtain ⟨happ, _, _⟩ := findFirstRelSplit_some name sec.children pre suf hsplit
    subst hsec'
    rw [PNode.children_withChildren, ← happ, List.filter_append, List.filter_append,
        removeRun_true_filter]
  · intro sec name sec' hok
    obtain ⟨pre, suf, hsplit, hsec'⟩ := profile_remove_node_ok hok
    obtain ⟨happ, _, _⟩ := findFirstRelSplit_some name sec.children pre suf hsplit
    subst hsec'
    rw [PNode.children_withChildren, ← happ, List.filter_append, List.filter_append,
        removeRun_false_filter]

/-- C3 witness. -/
theorem c3_remove_kind_amended_witness :
    (c3secRS.withChildren [c3sub]).children
      = c3secRS.children.filter (fun c => !(c.name == "n" && c.value.isSome)) :=
  c3_remove_kind_amended.1 c3secRS "n" (c3secRS.withChildren [c3sub]) (by decide) rfl

/-! ## Lemmas about `insertChild` and C5 -/

theorem insertChild_eq (name : String) (nw : PNode) :
    ∀ l : List PNode,
      insertChild name nw l
        = l.takeWhile (fun p => !strGt p.name name)
            ++ nw :: l.dropWhile (fun p => !strGt p.name name) := by
  intro l
  induction l with
  | nil => rfl
  | cons p rest ih =>
    cases h : strGt p.name name with
    | true =>
      have hins : insertChild name nw (p :: rest) = nw :: p :: rest := by
        simp only [insertChild]
        rw [if_pos h]
      rw [hins, List.takeWhile_cons_of_neg (by rw [h]; simp),
          List.dropWhile_cons_of_neg (by rw [h]; simp)]
      rfl
    | false =>
      have hins : insertChild name nw (p :: rest) = p :: insertChild name nw rest := by
        simp only [insertChild]
        rw [if_neg (by rw [h]; exact Bool.false_ne_true)]
      rw [hins, List.takeWhile_cons_of_pos (by rw [h]; rfl),
          List.dropWhile_cons_of_pos (by rw [h]; rfl), ih]
      rfl

theorem mem_insertChild {x : PNode} (name : String) (nw : PNode) :
    ∀ l : List PNode, x ∈ insertChild name nw l → x = nw ∨ x ∈ l := by
  intro l
  induction l with
  | nil =>
    intro h
    rcases List.mem_cons.mp h with h | h
    · exact Or.inl h
    · cases h
  | cons p rest ih =>
    simp only [insertChild]
    split
    · intro h
      rcases List.mem_cons.mp h with h | h
      · exact Or.inl h
      · exact Or.inr h
    · intro h
      rcases List.mem_cons.mp h with h | h
      · exact Or.inr (h ▸ List.mem_cons_self p rest)
      · rcases ih h with h | h
        · exact Or.inl h
        · exact Or.inr (List.mem_cons_of_mem p h)

theorem dropWhile_gt_of_sorted (name : String) :
    ∀ l : List PNode, l.Pairwise (fun a b => strGt a.name b.name = false) →
      ∀ p ∈ l.dropWhile (fun q => !strGt q.name name), strGt p.name name = true := by
  intro l
  induction l with
  | nil => intro _ p hp; cases hp
  | cons q rest ih =>
    intro hsort p hp
    have hrel := (List.pairwise_cons.mp hsort).1
    have hsort' := (List.pairwise_cons.mp hsort).2
    cases h : strGt q.name name with
    | true =>
      rw [List.dropWhile_cons_of_neg (by rw [h]; simp)] at hp
      rcases List.mem_cons.mp hp with hpq | hpr
      · rwa [hpq]
      · have h2 := hrel p hpr
        simp only [strGt] at h h2 ⊢
        exact charListLt_of_lt_of_not_lt h h2
    | false =>
      rw [List.dropWhile_cons_of_pos (by rw [h]; rfl)] at hp
      exact ih hsort' p hp

/-- Inversion of a successful `profile_add_node`. -/
theorem profile_add_node_ok {sec : PNode} {name : String} {value : Option String}
    {sec' nw : PNode} (h : profile_add_node sec name value = .ok (sec', nw)) :
    sec' = sec.withChildren (insertChild name nw sec.children) ∧
    nw = PNode.mk PROF_MAGIC_NODE name value (sec.group_level + 1) false [] ∧
    sec.magic = PROF_MAGIC_NODE ∧ sec.value = none := by
  unfold profile_add_node at h
  by_cases hm : sec.magic ≠ PROF_MAGIC_NODE
  · rw [if_pos hm] at h; cases h
  · rw [if_neg hm] at h
    by_cases hv : sec.value.isSome = true
    · rw [if_pos hv] at h; cases h
    · rw [if_neg hv] at h
      injection h with hok
      injection hok with h1 h2
      refine ⟨?_, h2.symm, not_not.mp hm, ?_⟩
      · rw [← h2, ← h1]
      · cases hval : sec.value with
        | none => rfl
        | some w => rw [hval] at hv; exact absurd rfl hv

/-- C5 counterexample: `c5secCA` satisfies the four structural invariants
(`profile_verify_node` succeeds) but its children are not name-sorted
(`c, a`); inserting `b` splices it before `c` — the first strictly-greater
child — and *not* after the last child whose name precedes `b` (that child,
`a`, sits at the end), so the claimed insert position is wrong for such a
section. -/
theorem c5_insert_position_counterexample :
    profile_verify_node c5secCA = 0 ∧
    (profile_add_node c5secCA "b" (some "3")).map (fun r => r.1.children.map PNode.name)
      = .ok ["b", "c", "a"] ∧
    ["b", "c", "a"] ≠ ["c", "a", "b"] :=
  ⟨rfl, rfl, by decide⟩

/-- C5 (amended): `profile_add_node` splices the new node immediately before
the first existing child whose name is strictly greater (scanning left to
right), sets its `group_level` to the section's plus one, and gives it the
requested name and value; everything before the splice point compares ≤ the
new name, and when the section's children are name-sorted (as all sections
maintained solely through insert are) everything after it compares strictly
greater — so the position is then also "after the last child whose name
equals or precedes".  Inserting b, a, b, c under an empty section yields
a, b, b, c with the two `b`s in insertion order. -/
theorem c5_insert_position_amended :
    (∀ (sec : PNode) (name : String) (value : Option String) (sec' nw : PNode),
      profile_add_node sec name value = .ok (sec', nw) →
      sec'.children
          = sec.children.takeWhile (fun p => !strGt p.name name)
              ++ nw :: sec.children.dropWhile (fun p => !strGt p.name name) ∧
        nw.group_level = sec.group_level + 1 ∧ nw.name = name ∧ nw.value = value ∧
        (∀ p ∈ sec.children.takeWhile (fun p => !strGt p.name name),
          strGt p.name name = false) ∧
        (sec.children.Pairwise (fun a b => strGt a.name b.name = false) →
          ∀ p ∈ sec.children.dropWhile (fun p => !strGt p.name name),
            strGt p.name name = true)) ∧
    (applyOps c5ops c5empty).map (fun r => r.children.map (fun c => (c.name, c.value)))
      = .ok [("a", some "2"), ("b", some "1"), ("b", some "3"), ("c", some "4")] := by
  constructor
  · intro sec name value sec' nw h
    obtain ⟨hsec', hnw, _, _⟩ := profile_add_node_ok h
    refine ⟨?_, by rw [hnw]; rfl, by rw [hnw]; rfl, by rw [hnw]; rfl, ?_, ?_⟩
    · rw [hsec', PNode.children_withChildren, insertChild_eq]
    · intro p hp
      have := List.mem_takeWhile_imp hp
      rw [Bool.not_eq_true'] at this
      exact this
    · intro hsort
      exact dropWhile_gt_of_sorted name sec.children hsort
  · rfl

/-- C5 witness. -/
theorem c5_insert_position_amended_witness :
    c5newB.group_level = c5empty.group_level + 1 :=
  (c5_insert_position_amended.1 c5empty "b" (some "1") c5secB c5newB rfl).2.1

/-! ## Lemmas about `dropUntil` and the single-section scanners (C6) -/

theorem dropUntil_suffix (f : PNode → Bool) :
    ∀ l : List PNode, (dropUntil f l).IsSuffix l := by
  intro l
  induction l with
  | nil => exact List.suffix_rfl
  | cons p rest ih =>
    simp only [dropUntil]
    split
    · exact List.suffix_rfl
    · exact ih.trans (List.suffix_cons p rest)

theorem dropUntil_head (f : PNode → Bool) :
    ∀ {l p rest}, dropUntil f l = p :: rest → f p = true := by
  intro l
  induction l with
  | nil => intro p rest h; cases h
  | cons q qs ih =>
    intro p rest h
    simp only [dropUntil] at h
    by_cases hq : f q = true
    · rw [if_pos hq] at h
      injection h with h1 _
      rw [← h1]; exact hq
    · rw [if_neg hq] at h
      exact ih h

theorem dropUntil_eq_nil_iff (f : PNode → Bool) :
    ∀ l : List PNode, dropUntil f l = [] ↔ ∀ x ∈ l, f x = false := by
  intro l
  induction l with
  | nil =>
    constructor
    · intro _ x hx; cases hx
    · intro _; rfl
  | cons q qs ih =>
    simp only [dropUntil]
    by_cases hq : f q = true
    · rw [if_pos hq]
      constructor
      · intro h; cases h
      · intro hall
        have := hall q (List.mem_cons_self q qs)
        rw [hq] at this; cases this
    · rw [if_neg hq]
      rw [Bool.not_eq_true] at hq
      constructor
      · intro h x hx
        rcases List.mem_cons.mp hx with hx | hx
        · rwa [hx]
        · exact (ih.mp h) x hx
      · intro hall
        exact ih.mpr (fun x hx => hall x (List.mem_cons_of_mem q hx))

theorem dropUntil_cons_self (f : PNode → Bool) (p : PNode) (rest : List PNode)
    (h : f p = true) : dropUntil f (p :: rest) = p :: rest := by
  simp only [dropUntil]
  rw [if_pos h]

theorem findRelFrom_spec (name : Option String) (start : List PNode) :
    ((findRelFrom name start).err = 0 ∨ (findRelFrom name start).err = PROF_NO_RELATION) ∧
    ((findRelFrom name start).err = PROF_NO_RELATION ↔ ∀ x ∈ start, relQual name x = false) ∧
    ((findRelFrom name start).err = PROF_NO_RELATION → (findRelFrom name start).state = []) ∧
    (∀ x ∈ (findRelFrom name start).state, x ∈ start) ∧
    (∀ p rest, (findRelFrom name start).state = p :: rest → relQual name p = true) := by
  unfold findRelFrom
  cases hd : dropUntil (relQual name) start with
  | nil =>
    refine ⟨Or.inr rfl, ?_, fun _ => rfl, ?_, ?_⟩
    · constructor
      · intro _; exact ((dropUntil_eq_nil_iff (relQual name) start).mp hd)
      · intro _; rfl
    · intro x hx; cases hx
    · intro p rest h; cases h
  | cons p rest =>
    have hsub : ∀ x ∈ dropUntil (relQual name) rest, x ∈ start := by
      intro x hx
      have h1 : x ∈ rest := (dropUntil_suffix (relQual name) rest).subset hx
      have h2 : p :: rest <:+ start := hd ▸ dropUntil_suffix (relQual name) start
      exact h2.subset (List.mem_cons_of_mem p h1)
    refine ⟨Or.inl rfl, ?_, ?_, hsub, ?_⟩
    · constructor
      · intro h
        exact absurd (show (0 : Nat) = PROF_NO_RELATION from h) (by decide)
      · intro hall
        have hp := dropUntil_head (relQual name) hd
        have hpmem : p ∈ start :=
          (hd ▸ dropUntil_suffix (relQual name) start).subset (List.mem_cons_self p rest)
        rw [hall p hpmem] at hp; cases hp
    · intro h
      exact absurd (show (0 : Nat) = PROF_NO_RELATION from h) (by decide)
    · intro q rest' h
      exact dropUntil_head (relQual name) h

theorem findSubFrom_spec (name : Option String) (start : List PNode) :
    ((findSubFrom name start).err = 0 ∨ (findSubFrom name start).err = PROF_NO_SECTION) ∧
    ((findSubFrom name start).err = PROF_NO_SECTION ↔ ∀ x ∈ start, subQual name x = false) ∧
    ((findSubFrom name start).err = PROF_NO_SECTION → (findSubFrom name start).state = []) ∧
    (∀ x ∈ (findSubFrom name start).state, x ∈ start) ∧
    (∀ p rest, (findSubFrom name start).state = p :: rest → subQual name p = true) := by
  unfold findSubFrom
  cases hd : dropUntil (subQual name) start with
  | nil =>
    refine ⟨Or.inr rfl, ?_, fun _ => rfl, ?_, ?_⟩
    · constructor
      · intro _; exact ((dropUntil_eq_nil_iff (subQual name) start).mp hd)
      · intro _; rfl
    · intro x hx; cases hx
    · intro p rest h; cases h
  | cons p rest =>
    have hsub : ∀ x ∈ dropUntil (subQual name) rest, x ∈ start := by
      intro x hx
      have h1 : x ∈ rest := (dropUntil_suffix (subQual name) rest).subset hx
      have h2 : p :: rest <:+ start := hd ▸ dropUntil_suffix (subQual name) start
      exact h2.subset (List.mem_cons_of_mem p h1)
    refine ⟨Or.inl rfl, ?_, ?_, hsub, ?_⟩
    · constructor
      · intro h
        exact absurd (show (0 : Nat) = PROF_NO_SECTION from h) (by decide)
      · intro hall
        have hp := dropUntil_head (subQual name) hd
        have hpmem : p ∈ start :=
          (hd ▸ dropUntil_suffix (subQual name) start).subset (List.mem_cons_self p rest)
        rw [hall p hpmem] at hp; cases hp
    · intro h
      exact absurd (show (0 : Nat) = PROF_NO_SECTION from h) (by decide)
    · intro q rest' h
      exact dropUntil_head (subQual name) h

theorem find_node_relation_nil_unfold (sec : PNode) (name : Option String)
    (hsec : sec.magic = PROF_MAGIC_NODE) :
    profile_find_node_relation sec name [] = findRelFrom name sec.children := by
  simp only [profile_find_node_relation]
  rw [if_neg (fun hc => hc hsec)]

theorem find_node_relation_cons_unfold (sec : PNode) (name : Option String)
    (p : PNode) (rest : List PNode) (hsec : sec.magic = PROF_MAGIC_NODE)
    (hp : p.magic = PROF_MAGIC_NODE) :
    profile_find_node_relation sec name (p :: rest) = findRelFrom name (p :: rest) := by
  simp only [profile_find_node_relation]
  rw [if_neg (fun hc => hc hsec), if_neg (fun hc => hc hp)]

theorem find_node_subsection_nil_unfold (sec : PNode) (name : Option String)
    (hsec : sec.magic = PROF_MAGIC_NODE) :
    profile_find_node_subsection sec name [] = findSubFrom name sec.children := by
  simp only [profile_find_node_subsection]
  rw [if_neg (fun hc => hc hsec)]

theorem find_node_subsection_cons_unfold (sec : PNode) (name : Option String)
    (p : PNode) (rest : List PNode) (hsec : sec.magic = PROF_MAGIC_NODE)
    (hp : p.magic = PROF_MAGIC_NODE) :
    profile_find_node_subsection sec name (p :: rest) = findSubFrom name (p :: rest) := by
  simp only [profile_find_node_subsection]
  rw [if_neg (fun hc => hc hsec), if_neg (fun hc => hc hp)]

/-- C6 counterexample: on a section with three relations `x = 1, 2, 3`
(interleaved with unrelated siblings) the scanner yields `(x,1)`, `(x,2)`,
`(x,3)` and clears the cursor; but the next call, made with the now-null
cursor, *restarts from the first child* (line 228) and returns `(x,1)` again
with success — no NotFound-class error ever follows the exhausted sequence,
contradicting the claim's "yields exactly (x,1),(x,2),(x,3) then NotFound". -/
theorem c6_scanner_counterexample :
    (profile_find_node_relation c6sec (some "x") []).err = 0 ∧
    (profile_find_node_relation c6sec (some "x") []).value = some "1" ∧
    (profile_find_node_relation c6sec (some "x")
        (profile_find_node_relation c6sec (some "x") []).state).value = some "2" ∧
    (profile_find_node_relation c6sec (some "x")
        (profile_find_node_relation c6sec (some "x")
          (profile_find_node_relation c6sec (some "x") []).state).state).value = some "3" ∧
    (profile_find_node_relation c6sec (some "x")
        (profile_find_node_relation c6sec (some "x")
          (profile_find_node_relation c6sec (some "x") []).state).state).state = [] ∧
    (profile_find_node_relation c6sec (some "x") ([] : List PNode)).err ≠ PROF_NO_RELATION :=
  ⟨rfl, rfl, rfl, rfl, rfl, by decide⟩

/-- C6 (amended): after every successful call the stored cursor is either
null or points at a node that itself qualifies, so success with a non-null
cursor guarantees the next call on the same unmodified section succeeds; a
call that finds no match *from its start position* clears the cursor and
returns the NotFound-class error of its variant (`PROF_NO_RELATION` /
`PROF_NO_SECTION`) — in particular a fresh scan of a section with no
qualifying child at all; but after a successfully exhausted sequence the
cursor is null and a further call restarts the scan rather than reporting
NotFound.  The three-relation example yields exactly (x,1), (x,2), (x,3)
with the third call clearing the cursor (the documented end-of-iteration
signal). -/
theorem c6_scanner_amended :
    (∀ (sec : PNode) (name : Option String) (state : List PNode),
      sec.magic = PROF_MAGIC_NODE →
      (∀ c ∈ sec.children, c.magic = PROF_MAGIC_NODE) →
      (∀ c ∈ state, c.magic = PROF_MAGIC_NODE) →
      ((profile_find_node_relation sec name state).err = 0 →
        ∀ p rest', (profile_find_node_relation sec name state).state = p :: rest' →
          relQual name p = true ∧
          (profile_find_node_relation sec name
            (profile_find_node_relation sec name state).state).err = 0) ∧
      ((profile_find_node_subsection sec name state).err = 0 →
        ∀ p rest', (profile_find_node_subsection sec name state).state = p :: rest' →
          subQual name p = true ∧
          (profile_find_node_subsection sec name
            (profile_find_node_subsection sec name state).state).err = 0)) ∧
    (∀ (sec : PNode) (name : Option String), sec.magic = PROF_MAGIC_NODE →
      (((profile_find_node_relation sec name []).err = PROF_NO_RELATION ↔
          ∀ c ∈ sec.children, relQual name c = false) ∧
        ((profile_find_node_relation sec name []).err = PROF_NO_RELATION →
          (profile_find_node_relation sec name []).state = []) ∧
        ((profile_find_node_subsection sec name []).err = PROF_NO_SECTION ↔
          ∀ c ∈ sec.children, subQual name c = false) ∧
        ((profile_find_node_subsection sec name []).err = PROF_NO_SECTION →
          (profile_find_node_subsection sec name []).state = []))) ∧
    ((profile_find_node_relation c6sec (some "x") []).value = some "1" ∧
      (profile_find_node_relation c6sec (some "x")
          (profile_find_node_relation c6sec (some "x") []).state).value = some "2" ∧
      (profile_find_node_relation c6sec (some "x")
          (profile_find_node_relation c6sec (some "x")
            (profile_find_node_relation c6sec (some "x") []).state).state).value = some "3" ∧
      (profile_find_node_relation c6sec (some "x")
          (profile_find_node_relation c6sec (some "x")
            (profile_find_node_relation c6sec (some "x") []).state).state).state = []) := by
  refine ⟨?_, ?_, rfl, rfl, rfl, rfl⟩
  · intro sec name state hsec hkids hstate
    constructor
    · intro _ p rest' hs
      -- identify the start list of the first call and carry magic facts
      have hstart :
          ∃ start, profile_find_node_relation sec name state = findRelFrom name start ∧
            ∀ c ∈ start, c.magic = PROF_MAGIC_NODE := by
        cases state with
        | nil => exact ⟨sec.children, find_node_relation_nil_unfold sec name hsec, hkids⟩
        | cons q qs =>
          exact ⟨q :: qs,
            find_node_relation_cons_unfold sec name q qs hsec
              (hstate q (List.mem_cons_self q qs)), hstate⟩
      obtain ⟨start, heq, hmag⟩ := hstart
      rw [heq] at hs
      have hq := (findRelFrom_spec name start).2.2.2.2 p rest' hs
      refine ⟨hq, ?_⟩
      have hpmag : p.magic = PROF_MAGIC_NODE :=
        hmag p ((findRelFrom_spec name start).2.2.2.1 p (hs ▸ List.mem_cons_self p rest'))
      rw [heq, hs, find_node_relation_cons_unfold sec name p rest' hsec hpmag]
      unfold findRelFrom
      rw [dropUntil_cons_self (relQual name) p rest' hq]
    · intro _ p rest' hs
      have hstart :
          ∃ start, profile_find_node_subsection sec name state = findSubFrom name start ∧
            ∀ c ∈ start, c.magic = PROF_MAGIC_NODE := by
        cases state with
        | nil => exact ⟨sec.children, find_node_subsection_nil_unfold sec name hsec, hkids⟩
        | cons q qs =>
          exact ⟨q :: qs,
            find_node_subsection_cons_unfold sec name q qs hsec
              (hstate q (List.mem_cons_self q qs)), hstate⟩
      obtain ⟨start, heq, hmag⟩ := hstart
      rw [heq] at hs
      have hq := (findSubFrom_spec name start).2.2.2.2 p rest' hs
      refine ⟨hq, ?_⟩
      have hpmag : p.magic = PROF_MAGIC_NODE :=
        hmag p ((findSubFrom_spec name start).2.2.2.1 p (hs ▸ List.mem_cons_self p rest'))
      rw [heq, hs, find_node_subsection_cons_unfold sec name p rest' hsec hpmag]
      unfold findSubFrom
      rw [dropUntil_cons_self (subQual name) p rest' hq]
  · intro sec name hsec
    rw [find_node_relation_nil_unfold sec name hsec,
        find_node_subsection_nil_unfold sec name hsec]
    exact ⟨(findRelFrom_spec name sec.children).2.1,
      (findRelFrom_spec name sec.children).2.2.1,
      (findSubFrom_spec name sec.children).2.1,
      (findSubFrom_spec name sec.children).2.2.1⟩

/-- C6 witness. -/
theorem c6_scanner_amended_witness :
    (profile_find_node_relation c6sec (some "w") []).err = PROF_NO_RELATION :=
  ((c6_scanner_amended.2.1 c6sec (some "w") rfl).1).mpr (by decide)

/-! ## C7: invariant preservation -/

theorem verifyChildren_eq_zero_iff (lvl : Int) :
    ∀ l : List PNode, verifyChildren lvl l = 0 ↔
      ∀ p ∈ l, p.group_level = lvl + 1 ∧ profile_verify_node p = 0 := by
  intro l
  induction l with
  | nil =>
    constructor
    · intro _ p hp; cases hp
    · intro _; rfl
  | cons p rest ih =>
    simp only [verifyChildren]
    by_cases hg : lvl + 1 ≠ p.group_level
    · rw [if_pos hg]
      constructor
      · intro h; exact absurd h (by decide)
      · intro hall
        exact absurd ((hall p (List.mem_cons_self p rest)).1.symm) hg
    · rw [if_neg hg]
      have hg' := not_not.mp hg
      by_cases hr : profile_verify_node p ≠ 0
      · rw [if_pos hr]
        constructor
        · intro h; exact absurd h hr
        · intro hall
          exact absurd (hall p (List.mem_cons_self p rest)).2 hr
      · rw [if_neg hr]
        have hr' := not_not.mp hr
        constructor
        · intro h q hq
          rcases List.mem_cons.mp hq with hq | hq
          · exact hq ▸ ⟨hg'.symm, hr'⟩
          · exact (ih.mp h) q hq
        · intro hall
          exact ih.mpr (fun q hq => hall q (List.mem_cons_of_mem p hq))

theorem profile_verify_node_eq_zero_iff (node : PNode) :
    profile_verify_node node = 0 ↔
      node.magic = PROF_MAGIC_NODE ∧
      (node.value.isSome && !node.children.isEmpty) = false ∧
      ∀ p ∈ node.children,
        p.group_level = node.group_level + 1 ∧ profile_verify_node p = 0 := by
  cases node with
  | mk m n v g f c =>
    simp only [profile_verify_node, PNode.magic_mk, PNode.value_mk, PNode.final_mk,
      PNode.group_level_mk]
    by_cases hm : m ≠ PROF_MAGIC_NODE
    · rw [if_pos hm]
      constructor
      · intro h; exact absurd h (by decide)
      · intro h; exact absurd h.1 hm
    · rw [if_neg hm]
      have hm' := not_not.mp hm
      by_cases hv : (v.isSome && !c.isEmpty) = true
      · rw [if_pos hv]
        constructor
        · intro h; exact absurd h (by decide)
        · intro h
          rw [hv] at h
          cases h.2.1
      · rw [if_neg hv]
        rw [Bool.not_eq_true] at hv
        constructor
        · intro h
          exact ⟨hm', hv, (verifyChildren_eq_zero_iff g c).mp h⟩
        · intro h
          exact (verifyChildren_eq_zero_iff g c).mpr h.2.2

theorem add_preserves {s : PNode} {name : String} {value : Option String}
    {s' nw : PNode} (h0 : profile_verify_node s = 0)
    (hok : profile_add_node s name value = .ok (s', nw)) :
    profile_verify_node s' = 0 ∧ s'.group_level = s.group_level := by
  obtain ⟨hs', hnw, _, hval⟩ := profile_add_node_ok hok
  have hchar := (profile_verify_node_eq_zero_iff s).mp h0
  have hnwver : profile_verify_node nw = 0 := by
    rw [hnw, profile_verify_node_eq_zero_iff]
    refine ⟨rfl, by simp, ?_⟩
    intro p hp; cases hp
  constructor
  · rw [hs', profile_verify_node_eq_zero_iff]
    refine ⟨by rw [PNode.magic_withChildren]; exact hchar.1, ?_, ?_⟩
    · rw [PNode.value_withChildren, hval]
      rfl
    · intro p hp
      rw [PNode.children_withChildren] at hp
      rw [PNode.group_level_withChildren]
      rcases mem_insertChild name nw s.children hp with hp | hp
      · subst hp
        exact ⟨by rw [hnw]; rfl, hnwver⟩
      · exact hchar.2.2 p hp
  · rw [hs', PNode.group_level_withChildren]

theorem remove_preserves {s : PNode} {name : String} {flag : Bool} {s' : PNode}
    (h0 : profile_verify_node s = 0)
    (hok : profile_remove_node s name flag = .ok s') :
    profile_verify_node s' = 0 ∧ s'.group_level = s.group_level := by
  obtain ⟨pre, suf, hsplit, hs'⟩ := profile_remove_node_ok hok
  obtain ⟨happ, _, p0, r0, hsuf, _⟩ := findFirstRelSplit_some name s.children pre suf hsplit
  have hchar := (profile_verify_node_eq_zero_iff s).mp h0
  have hne : s.children ≠ [] := by
    intro hc
    rw [hc] at happ
    have : suf = [] := (List.append_eq_nil.mp happ).2
    rw [hsuf] at this; cases this
  have hvfalse : s.value.isSome = false := by
    cases hvS : s.value.isSome with
    | false => rfl
    | true =>
      have := hchar.2.1
      rw [hvS] at this
      cases hemp : s.children.isEmpty with
      | true => exact absurd (List.isEmpty_iff.mp hemp) hne
      | false => rw [hemp] at this; cases this
  constructor
  · rw [hs', profile_verify_node_eq_zero_iff]
    refine ⟨by rw [PNode.magic_withChildren]; exact hchar.1, ?_, ?_⟩
    · rw [PNode.value_withChildren, hvfalse]
      rfl
    · intro p hp
      rw [PNode.children_withChildren] at hp
      rw [PNode.group_level_withChildren]
      have hmem : p ∈ s.children := by
        rw [← happ]
        rcases List.mem_append.mp hp with hp | hp
        · exact List.mem_append.mpr (Or.inl hp)
        · exact List.mem_append.mpr
            (Or.inr ((removeRun_sublist name flag suf).subset hp))
      exact hchar.2.2 p hmem
  · rw [hs', PNode.group_level_withChildren]

theorem modifyAt_preserves (f : PNode → Except Nat PNode)
    (hf : ∀ s s', profile_verify_node s = 0 → f s = .ok s' →
      profile_verify_node s' = 0 ∧ s'.group_level = s.group_level) :
    ∀ (path : List Nat) (node node' : PNode),
      profile_verify_node node = 0 → modifyAt f path node = .ok node' →
      profile_verify_node node' = 0 ∧ node'.group_level = node.group_level := by
  intro path
  induction path with
  | nil => intro node node' h0 hm; exact hf node node' h0 hm
  | cons i rest ih =>
    intro node node' h0 hm
    simp only [modifyAt] at hm
    cases hc : node.children[i]? with
    | none => simp only [hc] at hm; cases hm
    | some c =>
      simp only [hc] at hm
      cases hrec : modifyAt f rest c with
      | error e => simp only [hrec] at hm; cases hm
      | ok c' =>
        simp only [hrec] at hm
        injection hm with hm
        have hcmem : c ∈ node.children := List.getElem?_mem hc
        have hchar := (profile_verify_node_eq_zero_iff node).mp h0
        have hcprops := hchar.2.2 c hcmem
        have hrec' := ih c c' hcprops.2 hrec
        have hne : node.children ≠ [] := by
          intro hnil; rw [hnil] at hcmem; cases hcmem
        constructor
        · rw [← hm, profile_verify_node_eq_zero_iff]
          refine ⟨by rw [PNode.magic_withChildren]; exact hchar.1, ?_, ?_⟩
          · rw [PNode.value_withChildren]
            cases hvS : node.value.isSome with
            | false => rfl
            | true =>
              have := hchar.2.1
              rw [hvS] at this
              cases hemp : node.children.isEmpty with
              | true => exact absurd (List.isEmpty_iff.mp hemp) hne
              | false => rw [hemp] at this; cases this
          · intro p hp
            rw [PNode.children_withChildren] at hp
            rw [PNode.group_level_withChildren]
            rcases List.mem_or_eq_of_mem_set hp with hp | hp
            · exact hchar.2.2 p hp
            · subst hp
              exact ⟨by rw [hrec'.2]; exact hcprops.1, hrec'.1⟩
        · rw [← hm, PNode.group_level_withChildren]

theorem applyOp_preserves {op : TreeOp} {root root' : PNode}
    (h0 : profile_verify_node root = 0) (hop : applyOp op root = .ok root') :
    profile_verify_node root' = 0 := by
  cases op with
  | addOp path name value =>
    refine (modifyAt_preserves _ ?_ path root root' h0 hop).1
    intro s s' hs hf
    cases hadd : profile_add_node s name value with
    | error e => simp only [hadd, Except.map] at hf; cases hf
    | ok pr =>
      cases pr with
      | mk a b =>
        rw [hadd] at hf
        simp only [Except.map] at hf
        injection hf with hf
        exact hf ▸ add_preserves hs hadd
  | removeOp path name flag =>
    refine (modifyAt_preserves _ ?_ path root root' h0 hop).1
    intro s s' hs hf
    exact remove_preserves hs hf

/-- C7: starting from a tree satisfying the checked structural invariants,
any sequence of successful `profile_add_node` / `profile_remove_node`
operations keeps `profile_verify_node` succeeding on the root — and since
every prefix of a successful sequence is itself a successful sequence, the
verification succeeds after every step. -/
theorem c7_verify_preserved :
    ∀ (ops : List TreeOp) (root root' : PNode),
      profile_verify_node root = 0 → applyOps ops root = .ok root' →
      profile_verify_node root' = 0 := by
  intro ops
  induction ops with
  | nil =>
    intro root root' h0 hrun
    simp only [applyOps] at hrun
    injection hrun with hrun
    exact hrun ▸ h0
  | cons op rest ih =>
    intro root root' h0 hrun
    simp only [applyOps] at hrun
    cases hop : applyOp op root with
    | error e => rw [hop] at hrun; cases hrun
    | ok mid =>
      rw [hop] at hrun
      exact ih mid root' (applyOp_preserves h0 hop) hrun

/-- C7 witness. -/
theorem c7_verify_preserved_witness : profile_verify_node c7final = 0 :=
  c7_verify_preserved c7ops c7root c7final rfl rfl

/-! ## C9: exhaustion sentinel, dead-handle error, idempotent destroy -/

/-- C9: when no sources remain or a final section was consumed, the advance
call returns the end sentinel (`errcode` 0, all out parameters null) and
nulls the caller's handle; a further advance on the nulled handle returns the
InvalidHandle-class error `PROF_MAGIC_ITERATOR` rather than faulting; and
`profile_node_iterator_free` is idempotent (safe on an already-exhausted or
already-destroyed handle). -/
theorem c9_exhaustion_and_free :
    (∀ (files : List PrfFile) (it : ProfileIterator),
      it.magic = PROF_MAGIC_ITERATOR → it.node = [] →
      (files.length ≤ it.fileIdx ∨ it.flags.final_seen = true) →
      profile_node_iterator files (some it) = .out 0 none none) ∧
    (∀ files, profile_node_iterator files none = .out PROF_MAGIC_ITERATOR none none) ∧
    (∀ h, profile_node_iterator_free (profile_node_iterator_free h)
        = profile_node_iterator_free h) := by
  refine ⟨?_, fun _ => rfl, ?_⟩
  · intro files it hmag hnode hend
    have h1 : profile_node_iterator files (some it)
        = iterResolveGo (files.drop it.fileIdx) it 0 := by
      simp only [profile_node_iterator]
      rw [if_neg (fun hc => hc hmag), hnode]
      rfl
    rw [h1]
    rcases hend with hlen | hfin
    · rw [List.drop_eq_nil_of_le hlen]
      simp only [iterResolveGo]
      rw [if_pos (by rw [hnode]; rfl)]
      cases hfi : it.flags.final_seen with
      | true => rfl
      | false => rfl
    · cases hd : files.drop it.fileIdx with
      | nil =>
        simp only [iterResolveGo]
        rw [if_pos (by rw [hnode]; rfl)]
        rw [if_pos hfin]
      | cons f rest2 =>
        simp only [iterResolveGo]
        rw [if_pos (by rw [hnode]; rfl), if_pos hfin]
  · intro h
    cases h with
    | none => rfl
    | some it =>
      by_cases hm : it.magic ≠ PROF_MAGIC_ITERATOR
      · have hsame : profile_node_iterator_free (some it) = some it := by
          simp only [profile_node_iterator_free]
          rw [if_pos hm]
        rw [hsame, hsame]
      · have hgone : profile_node_iterator_free (some it) = none := by
          simp only [profile_node_iterator_free]
          rw [if_neg hm]
        rw [hgone]
        rfl

/-- C9 witness. -/
theorem c9_exhaustion_and_free_witness :
    profile_node_iterator c1files (some c9it) = .out 0 none none :=
  c9_exhaustion_and_free.1 c1files c9it rfl rfl (Or.inl (by decide))

/-! ## Lemmas about `scanQual` and `doScan` -/

theorem scanQual_none (name : Option String) (fl : IterFlags) :
    ∀ (l : List PNode) (k : Nat),
      (l.filter (qualifies name fl)).length ≤ k → scanQual name fl l k = none := by
  intro l
  induction l with
  | nil => intro k _; rfl
  | cons p rest ih =>
    intro k hk
    cases hq : qualifies name fl p with
    | true =>
      rw [List.filter_cons_of_pos (by rw [hq])] at hk
      cases k with
      | zero => cases hk
      | succ k' =>
        have hins : scanQual name fl (p :: rest) (k' + 1) = scanQual name fl rest k' := by
          simp only [scanQual]
          rw [hq]
          rfl
        rw [hins]
        exact ih k' (Nat.le_of_succ_le_succ hk)
    | false =>
      rw [List.filter_cons_of_neg (by rw [hq]; exact Bool.false_ne_true)] at hk
      have hins : scanQual name fl (p :: rest) k = scanQual name fl rest k := by
        simp only [scanQual]
        rw [hq]
        rfl
      rw [hins]
      exact ih k hk

theorem scanQual_some (name : Option String) (fl : IterFlags) :
    ∀ (l : List PNode) (k : Nat) (p : PNode) (tl : List PNode),
      (l.filter (qualifies name fl)).drop k = p :: tl →
      ∃ rest2, scanQual name fl l k = some (p, rest2) ∧
        rest2.filter (qualifies name fl) = tl := by
  intro l
  induction l with
  | nil => intro k p tl h; rw [List.filter_nil, List.drop_nil] at h; cases h
  | cons q rest ih =>
    intro k p tl h
    cases hq : qualifies name fl q with
    | true =>
      rw [List.filter_cons_of_pos (by rw [hq])] at h
      cases k with
      | zero =>
        rw [List.drop_zero] at h
        injection h with h1 h2
        refine ⟨rest, ?_, ?_⟩
        · simp only [scanQual]
          rw [hq, h1]
          rfl
        · exact h2
      | succ k' =>
        rw [List.drop_succ_cons] at h
        obtain ⟨rest2, hscan, hfil⟩ := ih k' p tl h
        refine ⟨rest2, ?_, hfil⟩
        simp only [scanQual]
        rw [hq]
        exact hscan
    | false =>
      rw [List.filter_cons_of_neg (by rw [hq]; exact Bool.false_ne_true)] at h
      obtain ⟨rest2, hscan, hfil⟩ := ih k p tl h
      refine ⟨rest2, ?_, hfil⟩
      simp only [scanQual]
      rw [hq]
      exact hscan

/-! ## C10: semantics of `iter->num` -/

theorem doScan_num (it : ProfileIterator) (skip : Nat) (o : IterOut)
    (h : doScan it skip = some o) :
    ∀ (e : Nat) (it' : ProfileIterator) (r : Option (PNode × String × Option String)),
      o = .out e (some it') r → it'.num = it.num + 1 := by
  unfold doScan at h
  cases hs : scanQual it.name it.flags it.node skip with
  | none => rw [hs] at h; cases h
  | some pr =>
    cases pr with
    | mk p rest2 =>
      rw [hs] at h
      injection h with h
      intro e it' r ho
      rw [← h] at ho
      injection ho with _ h2 _
      injection h2 with h2
      rw [← h2]

theorem resolveFile_fst (it : ProfileIterator) (f : PrfFile) :
    (resolveFile it f).1
      = { it with
          file_serial := f.upd_serial
          flags := { it.flags with final_seen := it.flags.final_seen ||
            (resolvePath f.root (pathComponents it.done_idx it.names).1).2 } } := by
  unfold resolveFile
  cases hres : resolvePath f.root (pathComponents it.done_idx it.names).1 with
  | mk osec fdelta => rfl

theorem resolveFile_snd (it : ProfileIterator) (f : PrfFile) :
    (resolveFile it f).2
      = (resolvePath f.root (pathComponents it.done_idx it.names).1).1 := by
  unfold resolveFile
  cases hres : resolvePath f.root (pathComponents it.done_idx it.names).1 with
  | mk osec fdelta => rfl

theorem iterResolveGo_num_mono :
    ∀ (rest : List PrfFile) (it : ProfileIterator) (skip e : Nat)
      (it' : ProfileIterator) (r : PNode × String × Option String),
      iterResolveGo rest it skip = .out e (some it') (some r) → it.num < it'.num := by
  intro rest
  induction rest with
  | nil =>
    intro it skip e it' r h
    simp only [iterResolveGo] at h
    by_cases hn : it.node.isEmpty = true
    · rw [if_pos hn] at h
      by_cases hf : it.flags.final_seen = true
      · rw [if_pos hf] at h
        injection h with _ h2 _
        cases h2
      · rw [if_neg hf] at h
        injection h with _ h2 _
        cases h2
    · rw [if_neg hn] at h
      cases hd : doScan it skip with
      | some o =>
        rw [hd] at h
        have := doScan_num it skip o hd e it' (some r) h
        rw [this]
        exact Nat.lt_succ_self _
      | none =>
        rw [hd] at h
        injection h with _ h2 _
        cases h2
  | cons f rest' ih =>
    intro it skip e it' r h
    simp only [iterResolveGo] at h
    by_cases hn : it.node.isEmpty = true
    · rw [if_pos hn] at h
      by_cases hf : it.flags.final_seen = true
      · rw [if_pos hf] at h
        injection h with _ h2 _
        cases h2
      · rw [if_neg hf] at h
        cases hrf : resolveFile it f with
        | mk it2 osec =>
          rw [hrf] at h
          have hit2 : it2 = (resolveFile it f).1 := by rw [hrf]
          have hnum2 : it2.num = it.num := by rw [hit2, resolveFile_fst]
          cases osec with
          | none =>
            have h2 := ih _ _ _ _ _ h
            rw [← hnum2]
            exact h2
          | some sec =>
            simp only [] at h
            by_cases hemp : sec.children.isEmpty = true
            · rw [if_pos hemp] at h
              by_cases hf2 : it2.flags.final_seen = true
              · rw [if_pos hf2] at h
                injection h with _ h2 _
                cases h2
              · rw [if_neg hf2] at h
                cases h
            · rw [if_neg hemp] at h
              cases hd : doScan
                  { it2 with
                      name := (pathComponents it2.done_idx it2.names).2
                      node := sec.children } skip with
              | some o =>
                rw [hd] at h
                have h3 := doScan_num _ skip o hd e it' (some r) h
                rw [h3, ← hnum2]
                exact Nat.lt_succ_self _
              | none =>
                rw [hd] at h
                have h2 := ih _ _ _ _ _ h
                rw [← hnum2]
                exact Nat.lt_of_succ_lt h2
    · rw [if_neg hn] at h
      cases hd : doScan it skip with
      | some o =>
        rw [hd] at h
        have := doScan_num it skip o hd e it' (some r) h
        rw [this]
        exact Nat.lt_succ_self _
      | none =>
        rw [hd] at h
        have h2 := ih _ _ _ _ _ h
        exact Nat.lt_of_succ_lt h2

/-- Lifting of the scan-counter monotonicity through the public entry point:
any advance call that yields a result strictly increases `iter->num`. -/
theorem profile_node_iterator_num_mono (files : List PrfFile)
    (it it' : ProfileIterator) (e : Nat) (r : PNode × String × Option String)
    (h : profile_node_iterator files (some it) = .out e (some it') (some r)) :
    it.num < it'.num := by
  simp only [profile_node_iterator] at h
  by_cases hm : it.magic ≠ PROF_MAGIC_ITERATOR
  · rw [if_pos hm] at h
    injection h with _ _ h3
    cases h3
  · rw [if_neg hm] at h
    split at h
    · simp only [iterResolve] at h
      have h2 := iterResolveGo_num_mono _ _ _ _ _ _ h
      exact h2
    · simp only [iterResolve] at h
      exact iterResolveGo_num_mono _ _ _ _ _ _ h

/-- C10: `iter->num` counts completed sibling-scan loops globally.  Every
yielding advance call strictly increases `num`; the first advance on a
two-source chain whose first source scans without a find leaves `num = 2`
(one increment per source scanned in that single call) while a one-source
yield leaves `num = 1`; `num` is never decremented or reset — so after a
generation change the stale-recovery skip target (`iter->num`) is the total
number of completed scans since creation: a stale iterator with `num = 5`
resuming over a reloaded source with seven matching relations skips five
and yields the sixth. -/
theorem c10_num_semantics :
    (∀ (files : List PrfFile) (it it' : ProfileIterator) (e : Nat)
       (r : PNode × String × Option String),
       profile_node_iterator files (some it) = .out e (some it') (some r) →
       it.num < it'.num)
    ∧ profile_node_iterator c4filesA (some c4it0)
        = .out 0 (some c4it1) (some (c4k1, "k", some "1"))
    ∧ (profile_node_iterator c10files (some c10it0)).nextHandle.map
        ProfileIterator.num = some 2
    ∧ (profile_node_iterator c10staleFiles (some c10staleIt)).yieldValue
        = some "6"
    ∧ (profile_node_iterator c10staleFiles (some c10staleIt)).nextHandle.map
        ProfileIterator.num = some 6 :=
  ⟨fun files it it' e r h => profile_node_iterator_num_mono files it it' e r h,
   rfl, rfl, rfl, rfl⟩

/-- C10 witness: the general monotonicity conjunct applied to the concrete
first advance on `c4filesA`, whose hypothesis holds by computation. -/
theorem c10_num_semantics_witness : c4it0.num < c4it1.num :=
  c10_num_semantics.1 c4filesA c4it0 c4it1 0 (c4k1, "k", some "1") rfl

/-- Unfolding of one file-resolution step given the path-walk's result. -/
theorem resolveFile_eq (it : ProfileIterator) (f : PrfFile) (osec : Option PNode) (b : Bool)
    (h : resolvePath f.root (pathComponents it.done_idx it.names).1 = (osec, b)) :
    resolveFile it f
      = ({ it with
            file_serial := f.upd_serial
            flags := { it.flags with final_seen := it.flags.final_seen || b } }, osec) := by
  unfold resolveFile
  rw [h]

/-- A cleared cursor resuming over file `f`: when the path re-resolves (with
no final flag on the walk) and the resolved section still holds a qualifying
match after the first `skip` are dropped, the machinery yields exactly that
match. -/
theorem iterResolveGo_stale_yield (rest' : List PrfFile) (it0 : ProfileIterator)
    (f : PrfFile) (sec p : PNode) (tl : List PNode) (skip : Nat)
    (hnode : it0.node = [])
    (hfs : it0.flags.final_seen = false)
    (hres : resolvePath f.root (pathComponents it0.done_idx it0.names).1 = (some sec, false))
    (hdrop : (sec.children.filter
        (qualifies (pathComponents it0.done_idx it0.names).2 it0.flags)).drop skip
      = p :: tl) :
    ∃ it', iterResolveGo (f :: rest') it0 skip
        = .out 0 (some it') (some (p, p.name, p.value)) := by
  obtain ⟨rest2, hscan, -⟩ := scanQual_some _ _ sec.children skip p tl hdrop
  have hne : sec.children.isEmpty = false := by
    cases hc : sec.children with
    | nil =>
      rw [hc, List.filter_nil, List.drop_nil] at hdrop
      cases hdrop
    | cons a b => rfl
  simp only [iterResolveGo, hnode, List.isEmpty_nil, if_true]
  rw [if_neg (by rw [hfs]; exact Bool.false_ne_true)]
  simp only [resolveFile_eq it0 f (some sec) false hres, Bool.or_false]
  rw [if_neg (by rw [hne]; exact Bool.false_ne_true)]
  have hscan2 : scanQual (pathComponents it0.done_idx it0.names).2
      { list_section := it0.flags.list_section
        sections_only := it0.flags.sections_only
        relations_only := it0.flags.relations_only
        final_seen := it0.flags.final_seen } sec.children skip = some (p, rest2) := hscan
  simp only [doScan, hscan2]
  exact ⟨_, rfl⟩

/-- C4 counterexample: the stale-recovery skip target does NOT restart at
zero per source.  Starting fresh over `c4filesA`, the first advance yields
`1` from source 1 (one completed scan), the second yields `2` from source 2
leaving `num = 2` though only one entry came from the current source; after
source 2 reloads (`c4filesB`, generation 2, relations `2x, 3x, 4x`),
recovery skips `num = 2` matches and yields `4x` — while skipping only the
one entry yielded from the current source would yield `3x`. -/
theorem c4_skip_counterexample :
    profile_node_iterator c4filesA (some c4it0)
        = .out 0 (some c4it1) (some (c4k1, "k", some "1"))
    ∧ profile_node_iterator c4filesA (some c4it1)
        = .out 0 (some c4staleIt) (some (c4k2, "k", some "2"))
    ∧ (profile_node_iterator c4filesB (some c4staleIt)).yieldValue = some "4x"
    ∧ scanQual (some "k") {} [c4k2x, c4k3x, c4k4x] 1 = some (c4k3x, [c4k4x])
    ∧ c4k3x.value = some "3x"
    ∧ (profile_node_iterator c4filesB (some c4staleIt)).yieldValue ≠ some "3x" :=
  ⟨rfl, rfl, rfl, rfl, rfl, by decide⟩

/-- C4 (amended): on a set cursor with a generation mismatch at the current
file, recovery re-resolves the path in that file's reloaded tree and skips
the first `iter->num` qualifying matches there — `num` being the global
count of completed scan loops since the iterator was created (it is never
reset when moving to a new source), not the number of entries yielded from
the current source.  Recovery itself never touches the stale cursor's
nodes, only the reloaded tree. -/
theorem c4_skip_amended (files : List PrfFile) (it : ProfileIterator)
    (f : PrfFile) (sec p : PNode) (tl : List PNode)
    (hmagic : it.magic = PROF_MAGIC_ITERATOR)
    (hnode : it.node.isEmpty = false)
    (hfile : files[it.fileIdx]? = some f)
    (hser : (f.upd_serial != it.file_serial) = true)
    (hres : resolvePath f.root (pathComponents it.done_idx it.names).1 = (some sec, false))
    (hdrop : (sec.children.filter
        (qualifies (pathComponents it.done_idx it.names).2
          { it.flags with final_seen := false })).drop it.num = p :: tl) :
    ∃ it', profile_node_iterator files (some it)
        = .out 0 (some it') (some (p, p.name, p.value)) := by
  simp only [profile_node_iterator]
  rw [if_neg (not_not_intro hmagic)]
  rw [hnode, hfile]
  simp only [Bool.not_false, Bool.true_and]
  rw [hser, if_pos rfl]
  simp only [iterResolve]
  have hlt : it.fileIdx < files.length := by
    by_contra hge
    rw [List.getElem?_eq_none (Nat.le_of_not_lt hge)] at hfile
    cases hfile
  have hget : files[it.fileIdx] = f := by
    rw [List.getElem?_eq_getElem hlt] at hfile
    exact Option.some.inj hfile
  have hcons : files.drop it.fileIdx = f :: files.drop (it.fileIdx + 1) := by
    rw [List.drop_eq_getElem_cons hlt, hget]
  rw [hcons]
  exact iterResolveGo_stale_yield _ _ f sec p tl it.num rfl rfl hres hdrop

/-- C4 witness: the amended theorem applied to the reloaded two-source
chain — the stale iterator (`num = 5` is irrelevant here: this one has
`num = 2`) skips two matches in the reloaded tree and yields `4x`. -/
theorem c4_skip_amended_witness :
    ∃ it', profile_node_iterator c4filesB (some c4staleIt)
        = .out 0 (some it') (some (c4k4x, c4k4x.name, c4k4x.value)) :=
  c4_skip_amended c4filesB c4staleIt ⟨c4root2x, 2⟩ c4a2x c4k4x []
    rfl rfl rfl rfl rfl rfl

/-- Qualification ignores the FINAL_SEEN bit: only the kind-filter bits
matter. -/
theorem qualifies_congr (n : Option String) (fl1 fl2 : IterFlags)
    (h1 : fl1.sections_only = fl2.sections_only)
    (h2 : fl1.relations_only = fl2.relations_only) :
    qualifies n fl1 = qualifies n fl2 := by
  funext p
  unfold qualifies
  rw [h1, h2]

theorem scanQual_congr (n : Option String) (fl1 fl2 : IterFlags)
    (h1 : fl1.sections_only = fl2.sections_only)
    (h2 : fl1.relations_only = fl2.relations_only) :
    ∀ (l : List PNode) (k : Nat), scanQual n fl1 l k = scanQual n fl2 l k := by
  intro l
  induction l with
  | nil => intro k; rfl
  | cons p rest ih =>
    intro k
    cases k with
    | zero => simp only [scanQual, qualifies_congr n fl1 fl2 h1 h2, ih]
    | succ k' => simp only [scanQual, qualifies_congr n fl1 fl2 h1 h2, ih]

theorem drop_getElem_head (files : List PrfFile) (n : Nat) (f : PrfFile)
    (r : List PrfFile) (h : files.drop n = f :: r) : files[n]? = some f := by
  have h0 : (files.drop n)[0]? = some f := by rw [h]; simp
  rw [List.getElem?_drop] at h0
  simpa using h0

theorem drop_succ_eq (files : List PrfFile) (n : Nat) (f : PrfFile)
    (r : List PrfFile) (h : files.drop n = f :: r) : files.drop (n + 1) = r := by
  rw [← List.tail_drop, h]
  rfl

theorem expectedYields_cons_none (fl : IterFlags) (comps : List String)
    (filt : Option String) (f : PrfFile) (fs : List PrfFile) (b : Bool)
    (h : resolvePath f.root comps = (none, b)) :
    expectedYields fl comps filt (f :: fs)
      = if b then [] else expectedYields fl comps filt fs := by
  conv_lhs => rw [expectedYields]
  rw [h]

theorem expectedYields_cons_some (fl : IterFlags) (comps : List String)
    (filt : Option String) (f : PrfFile) (fs : List PrfFile) (sec : PNode) (b : Bool)
    (h : resolvePath f.root comps = (some sec, b)) :
    expectedYields fl comps filt (f :: fs)
      = if b then sec.children.filter (qualifies filt fl)
        else if sec.children.isEmpty then []
        else sec.children.filter (qualifies filt fl) ++ expectedYields fl comps filt fs := by
  conv_lhs => rw [expectedYields]
  rw [h]

theorem iterResolveGo_sim_nil (files : List PrfFile) (fl : IterFlags)
    (comps : List String) (filt : Option String) :
    ∀ (rest : List PrfFile) (it : ProfileIterator),
      rest = files.drop it.fileIdx →
      IterWF files fl comps filt it →
      remIt files fl comps filt it = [] →
      ∀ (e : Nat) (h' : Option ProfileIterator)
        (q : Option (PNode × String × Option String)),
        iterResolveGo rest it 0 = .out e h' q → q = none := by
  intro rest
  induction rest with
  | nil =>
    intro it hrest hwf hrem e h' q h
    obtain ⟨hmg, hcomps, hso, hro, hcur⟩ := hwf
    simp only [remIt] at hrem
    rw [List.append_eq_nil] at hrem
    obtain ⟨hfil, hrem2⟩ := hrem
    simp only [iterResolveGo] at h
    by_cases hn : it.node.isEmpty = true
    · rw [if_pos hn] at h
      by_cases hfs : it.flags.final_seen = true
      · rw [if_pos hfs] at h
        injection h with h1 h2 h3
        exact h3.symm
      · rw [if_neg hfs] at h
        injection h with h1 h2 h3
        exact h3.symm
    · rw [if_neg hn] at h
      have hn' : it.node.isEmpty = false := eq_false_of_ne_true hn
      obtain ⟨hname, f0, hf0, hs0⟩ := hcur hn'
      have hscan : scanQual it.name it.flags it.node 0 = none := by
        rw [hname, scanQual_congr filt it.flags fl hso hro]
        exact scanQual_none filt fl it.node 0 (by rw [hfil]; exact Nat.le_refl 0)
      have hd : doScan it 0 = none := by unfold doScan; rw [hscan]
      rw [hd] at h
      injection h with h1 h2 h3
      exact h3.symm
  | cons f rest' ih =>
    intro it hrest hwf hrem e h' q h
    obtain ⟨hmg, hcomps, hso, hro, hcur⟩ := hwf
    have hcomps1 : (pathComponents it.done_idx it.names).1 = comps := by rw [hcomps]
    have hfilt : (pathComponents it.done_idx it.names).2 = filt := by rw [hcomps]
    have hfile : files[it.fileIdx]? = some f :=
      drop_getElem_head files it.fileIdx f rest' hrest.symm
    have hdropsucc : files.drop (it.fileIdx + 1) = rest' :=
      drop_succ_eq files it.fileIdx f rest' hrest.symm
    simp only [remIt] at hrem
    rw [List.append_eq_nil] at hrem
    obtain ⟨hfil, hrem2⟩ := hrem
    simp only [iterResolveGo] at h
    by_cases hn : it.node.isEmpty = true
    · rw [if_pos hn] at h
      have hnodeEq : it.node = [] := List.isEmpty_iff.mp hn
      by_cases hfs : it.flags.final_seen = true
      · rw [if_pos hfs] at h
        injection h with h1 h2 h3
        exact h3.symm
      · rw [if_neg hfs] at h
        have hfs' : it.flags.final_seen = false := eq_false_of_ne_true hfs
        rw [if_neg (by rw [hfs']; exact Bool.false_ne_true), hn, if_pos rfl,
          ← hrest] at hrem2
        cases hres : resolvePath f.root comps with
        | mk osec fdelta =>
          have hresit : resolvePath f.root (pathComponents it.done_idx it.names).1
              = (osec, fdelta) := by rw [hcomps1, hres]
          rw [resolveFile_eq it f osec fdelta hresit, hfs'] at h
          simp only [Bool.false_or] at h
          cases osec with
          | none =>
            rw [expectedYields_cons_none fl comps filt f rest' fdelta hres] at hrem2
            have hrem3 : remIt files fl comps filt
                { it with
                    file_serial := f.upd_serial
                    flags := { it.flags with final_seen := fdelta }
                    fileIdx := it.fileIdx + 1 } = [] := by
              simp only [remIt, hnodeEq, List.filter_nil, List.nil_append,
                List.isEmpty_nil, if_true, hdropsucc]
              cases fdelta with
              | true => rfl
              | false => simpa using hrem2
            refine ih
              { it with
                  file_serial := f.upd_serial
                  flags := { it.flags with final_seen := fdelta }
                  fileIdx := it.fileIdx + 1 }
              hdropsucc.symm ⟨hmg, hcomps, hso, hro, ?_⟩ hrem3 e h' q h
            intro hne
            simp [hnodeEq] at hne
          | some sec =>
            rw [expectedYields_cons_some fl comps filt f rest' sec fdelta hres] at hrem2
            simp only [] at h
            by_cases hemp : sec.children.isEmpty = true
            · rw [if_pos hemp] at h
              cases fdelta with
              | true =>
                rw [if_pos rfl] at h
                injection h with h1 h2 h3
                exact h3.symm
              | false =>
                rw [if_neg Bool.false_ne_true] at h
                cases h
            · rw [if_neg hemp] at h
              have hemp' : sec.children.isEmpty = false := eq_false_of_ne_true hemp
              have hys : sec.children.filter (qualifies filt fl) = [] := by
                cases fdelta with
                | true => simpa using hrem2
                | false =>
                  rw [if_neg Bool.false_ne_true,
                    if_neg (by rw [hemp']; exact Bool.false_ne_true)] at hrem2
                  exact (List.append_eq_nil.mp hrem2).1
              have hscan2 : scanQual (pathComponents it.done_idx it.names).2
                  { list_section := it.flags.list_section
                    sections_only := it.flags.sections_only
                    relations_only := it.flags.relations_only
                    final_seen := fdelta } sec.children 0 = none := by
                rw [hfilt]
                rw [scanQual_congr filt
                  { list_section := it.flags.list_section
                    sections_only := it.flags.sections_only
                    relations_only := it.flags.relations_only
                    final_seen := fdelta } fl hso hro]
                exact scanQual_none filt fl sec.children 0
                  (by rw [hys]; exact Nat.le_refl 0)
              simp only [doScan, hscan2] at h
              have hrem3 : remIt files fl comps filt
                  { it with
                      file_serial := f.upd_serial
                      flags := { it.flags with final_seen := fdelta }
                      name := (pathComponents it.done_idx it.names).2
                      node := []
                      num := it.num + 1
                      fileIdx := it.fileIdx + 1 } = [] := by
                simp only [remIt, List.filter_nil, List.nil_append,
                  List.isEmpty_nil, if_true, hdropsucc]
                cases fdelta with
                | true => rfl
                | false =>
                  rw [if_neg Bool.false_ne_true,
                    if_neg (by rw [hemp']; exact Bool.false_ne_true)] at hrem2
                  simpa using (List.append_eq_nil.mp hrem2).2
              refine ih
                { it with
                    file_serial := f.upd_serial
                    flags := { it.flags with final_seen := fdelta }
                    name := (pathComponents it.done_idx it.names).2
                    node := []
                    num := it.num + 1
                    fileIdx := it.fileIdx + 1 }
                hdropsucc.symm ⟨hmg, hcomps, hso, hro, ?_⟩ hrem3 e h' q h
              intro hne
              cases hne
    · rw [if_neg hn] at h
      have hn' : it.node.isEmpty = false := eq_false_of_ne_true hn
      obtain ⟨hname, f0, hf0, hs0⟩ := hcur hn'
      have hnneg : ¬(it.node.isEmpty = true) := by rw [hn']; exact Bool.false_ne_true
      rw [if_neg hnneg] at hrem2
      have hscan : scanQual it.name it.flags it.node 0 = none := by
        rw [hname, scanQual_congr filt it.flags fl hso hro]
        exact scanQual_none filt fl it.node 0 (by rw [hfil]; exact Nat.le_refl 0)
      have hd : doScan it 0 = none := by unfold doScan; rw [hscan]
      rw [hd] at h
      have hrem3 : remIt files fl comps filt
          { it with node := [], num := it.num + 1, fileIdx := it.fileIdx + 1 } = [] := by
        simp only [remIt, List.filter_nil, List.nil_append,
          List.isEmpty_nil, if_true, hdropsucc]
        rw [hdropsucc] at hrem2
        exact hrem2
      refine ih
        { it with node := [], num := it.num + 1, fileIdx := it.fileIdx + 1 }
        hdropsucc.symm ⟨hmg, hcomps, hso, hro, ?_⟩ hrem3 e h' q h
      intro hne
      cases hne

theorem doScan_succ (files : List PrfFile) (fl : IterFlags) (comps : List String)
    (filt : Option String) (it : ProfileIterator) (skip : Nat) (p : PNode)
    (rest2 : List PNode)
    (hmg : it.magic = PROF_MAGIC_ITERATOR)
    (hcomps : pathComponents it.done_idx it.names = (comps, filt))
    (hso : it.flags.sections_only = fl.sections_only)
    (hro : it.flags.relations_only = fl.relations_only)
    (hname : it.name = filt)
    (hfile : ∃ f, files[it.fileIdx]? = some f ∧ f.upd_serial = it.file_serial)
    (hscan : scanQual it.name it.flags it.node skip = some (p, rest2)) :
    doScan it skip = some (.out 0 (some { it with
        num := it.num + 1
        node := rest2
        fileIdx := if rest2.isEmpty then it.fileIdx + 1 else it.fileIdx })
      (some (p, p.name, p.value)))
    ∧ IterWF files fl comps filt { it with
        num := it.num + 1
        node := rest2
        fileIdx := if rest2.isEmpty then it.fileIdx + 1 else it.fileIdx }
    ∧ remIt files fl comps filt { it with
        num := it.num + 1
        node := rest2
        fileIdx := if rest2.isEmpty then it.fileIdx + 1 else it.fileIdx }
      = rest2.filter (qualifies filt fl)
        ++ (if it.flags.final_seen then []
            else expectedYields fl comps filt (files.drop (it.fileIdx + 1))) := by
  refine ⟨by unfold doScan; rw [hscan], ⟨hmg, hcomps, hso, hro, ?_⟩, ?_⟩
  · intro hne
    have hre : rest2.isEmpty = false := hne
    obtain ⟨f, hf, hs⟩ := hfile
    refine ⟨hname, f, ?_, hs⟩
    show files[if rest2.isEmpty = true then it.fileIdx + 1 else it.fileIdx]? = some f
    rw [hre, if_neg Bool.false_ne_true]
    exact hf
  · cases hre : rest2.isEmpty with
    | true => simp [remIt, hre]
    | false => simp [remIt, hre]

theorem iterResolveGo_sim_cons (files : List PrfFile) (fl : IterFlags)
    (comps : List String) (filt : Option String) :
    ∀ (rest : List PrfFile) (it : ProfileIterator) (p : PNode) (tl : List PNode),
      rest = files.drop it.fileIdx →
      IterWF files fl comps filt it →
      remIt files fl comps filt it = p :: tl →
      ∃ it', iterResolveGo rest it 0 = .out 0 (some it') (some (p, p.name, p.value))
        ∧ IterWF files fl comps filt it'
        ∧ remIt files fl comps filt it' = tl := by
  intro rest
  induction rest with
  | nil =>
    intro it p tl hrest hwf hrem
    obtain ⟨hmg, hcomps, hso, hro, hcur⟩ := hwf
    by_cases hn : it.node.isEmpty = true
    · have hnodeEq : it.node = [] := List.isEmpty_iff.mp hn
      simp only [remIt, hnodeEq, List.filter_nil, List.nil_append, List.isEmpty_nil,
        if_true, ← hrest] at hrem
      have hz : (if it.flags.final_seen = true then ([] : List PNode)
          else expectedYields fl comps filt []) = [] := by
        by_cases hfs : it.flags.final_seen = true
        · rw [if_pos hfs]
        · rw [if_neg hfs]; rfl
      rw [hz] at hrem
      cases hrem
    · have hn' : it.node.isEmpty = false := eq_false_of_ne_true hn
      obtain ⟨hname, f0, hf0, hs0⟩ := hcur hn'
      have hnone : files[it.fileIdx]? = none := by
        have h0 := List.getElem?_drop files it.fileIdx 0
        rw [← hrest] at h0
        simpa using h0.symm
      rw [hnone] at hf0
      cases hf0
  | cons f rest' ih =>
    intro it p tl hrest hwf hrem
    obtain ⟨hmg, hcomps, hso, hro, hcur⟩ := hwf
    have hcomps1 : (pathComponents it.done_idx it.names).1 = comps := by rw [hcomps]
    have hfilt : (pathComponents it.done_idx it.names).2 = filt := by rw [hcomps]
    have hfile : files[it.fileIdx]? = some f :=
      drop_getElem_head files it.fileIdx f rest' hrest.symm
    have hdropsucc : files.drop (it.fileIdx + 1) = rest' :=
      drop_succ_eq files it.fileIdx f rest' hrest.symm
    simp only [remIt] at hrem
    simp only [iterResolveGo]
    by_cases hn : it.node.isEmpty = true
    · rw [if_pos hn]
      have hnodeEq : it.node = [] := List.isEmpty_iff.mp hn
      rw [hn, if_pos rfl, hnodeEq, List.filter_nil, List.nil_append, ← hrest] at hrem
      have hfs' : it.flags.final_seen = false := by
        cases hq : it.flags.final_seen
        · rfl
        · rw [hq, if_pos rfl] at hrem; cases hrem
      rw [if_neg (by rw [hfs']; exact Bool.false_ne_true)] at hrem
      rw [if_neg (by rw [hfs']; exact Bool.false_ne_true)]
      cases hres : resolvePath f.root comps with
      | mk osec fdelta =>
        have hresit : resolvePath f.root (pathComponents it.done_idx it.names).1
            = (osec, fdelta) := by rw [hcomps1, hres]
        rw [resolveFile_eq it f osec fdelta hresit, hfs']
        simp only [Bool.false_or]
        cases osec with
        | none =>
          rw [expectedYields_cons_none fl comps filt f rest' fdelta hres] at hrem
          cases fdelta with
          | true => rw [if_pos rfl] at hrem; cases hrem
          | false =>
            rw [if_neg Bool.false_ne_true] at hrem
            have hrem3 : remIt files fl comps filt
                { it with
                    file_serial := f.upd_serial
                    flags := { it.flags with final_seen := false }
                    fileIdx := it.fileIdx + 1 } = p :: tl := by
              simp only [remIt, hnodeEq, List.filter_nil, List.nil_append,
                List.isEmpty_nil, if_true, hdropsucc]
              rw [if_neg Bool.false_ne_true]
              exact hrem
            exact ih
              { it with
                  file_serial := f.upd_serial
                  flags := { it.flags with final_seen := false }
                  fileIdx := it.fileIdx + 1 }
              p tl hdropsucc.symm
              ⟨hmg, hcomps, hso, hro, by intro hne; simp [hnodeEq] at hne⟩ hrem3
        | some sec =>
          rw [expectedYields_cons_some fl comps filt f rest' sec fdelta hres] at hrem
          simp only []
          by_cases hemp : sec.children.isEmpty = true
          · have hch : sec.children = [] := List.isEmpty_iff.mp hemp
            cases fdelta with
            | true =>
              rw [if_pos rfl, hch, List.filter_nil] at hrem
              cases hrem
            | false =>
              rw [if_neg Bool.false_ne_true, if_pos hemp] at hrem
              cases hrem
          · rw [if_neg hemp]
            have hemp' : sec.children.isEmpty = false := eq_false_of_ne_true hemp
            cases fdelta with
            | true =>
              rw [if_pos rfl] at hrem
              obtain ⟨rest2, hsq, h2⟩ := scanQual_some filt fl sec.children 0 p tl
                (by rw [List.drop_zero]; exact hrem)
              have hscan2 : scanQual (pathComponents it.done_idx it.names).2
                  { list_section := it.flags.list_section
                    sections_only := it.flags.sections_only
                    relations_only := it.flags.relations_only
                    final_seen := true } sec.children 0 = some (p, rest2) := by
                rw [hfilt]
                rw [scanQual_congr filt
                  { list_section := it.flags.list_section
                    sections_only := it.flags.sections_only
                    relations_only := it.flags.relations_only
                    final_seen := true } fl hso hro]
                exact hsq
              simp only [doScan, hscan2]
              refine ⟨_, rfl, ?_, ?_⟩
              · exact (doScan_succ files fl comps filt
                  { it with
                      file_serial := f.upd_serial
                      flags := { it.flags with final_seen := true }
                      name := (pathComponents it.done_idx it.names).2
                      node := sec.children }
                  0 p rest2 hmg hcomps hso hro hfilt ⟨f, hfile, rfl⟩ hscan2).2.1
              · refine ((doScan_succ files fl comps filt
                  { it with
                      file_serial := f.upd_serial
                      flags := { it.flags with final_seen := true }
                      name := (pathComponents it.done_idx it.names).2
                      node := sec.children }
                  0 p rest2 hmg hcomps hso hro hfilt ⟨f, hfile, rfl⟩ hscan2).2.2).trans ?_
                show rest2.filter (qualifies filt fl)
                    ++ (if true = true then []
                        else expectedYields fl comps filt (files.drop (it.fileIdx + 1)))
                  = tl
                rw [if_pos rfl, List.append_nil, h2]
            | false =>
              rw [if_neg Bool.false_ne_true,
                if_neg (by rw [hemp']; exact Bool.false_ne_true)] at hrem
              cases hysc : sec.children.filter (qualifies filt fl) with
              | nil =>
                rw [hysc, List.nil_append] at hrem
                have hscan2 : scanQual (pathComponents it.done_idx it.names).2
                    { list_section := it.flags.list_section
                      sections_only := it.flags.sections_only
                      relations_only := it.flags.relations_only
                      final_seen := false } sec.children 0 = none := by
                  rw [hfilt]
                  rw [scanQual_congr filt
                    { list_section := it.flags.list_section
                      sections_only := it.flags.sections_only
                      relations_only := it.flags.relations_only
                      final_seen := false } fl hso hro]
                  exact scanQual_none filt fl sec.children 0
                    (by rw [hysc]; exact Nat.le_refl 0)
                simp only [doScan, hscan2]
                have hrem3 : remIt files fl comps filt
                    { it with
                        file_serial := f.upd_serial
                        flags := { it.flags with final_seen := false }
                        name := (pathComponents it.done_idx it.names).2
                        node := []
                        num := it.num + 1
                        fileIdx := it.fileIdx + 1 } = p :: tl := by
                  simp only [remIt, List.filter_nil, List.nil_append,
                    List.isEmpty_nil, if_true, hdropsucc]
                  rw [if_neg Bool.false_ne_true]
                  exact hrem
                exact ih
                  { it with
                      file_serial := f.upd_serial
                      flags := { it.flags with final_seen := false }
                      name := (pathComponents it.done_idx it.names).2
                      node := []
                      num := it.num + 1
                      fileIdx := it.fileIdx + 1 }
                  p tl hdropsucc.symm
                  ⟨hmg, hcomps, hso, hro, by intro hne; cases hne⟩ hrem3
              | cons y ys' =>
                rw [hysc, List.cons_append] at hrem
                injection hrem with hyp hrem'
                subst hyp
                obtain ⟨rest2, hsq, h2⟩ := scanQual_some filt fl sec.children 0 y ys'
                  (by rw [List.drop_zero]; exact hysc)
                have hscan2 : scanQual (pathComponents it.done_idx it.names).2
                    { list_section := it.flags.list_section
                      sections_only := it.flags.sections_only
                      relations_only := it.flags.relations_only
                      final_seen := false } sec.children 0 = some (y, rest2) := by
                  rw [hfilt]
                  rw [scanQual_congr filt
                    { list_section := it.flags.list_section
                      sections_only := it.flags.sections_only
                      relations_only := it.flags.relations_only
                      final_seen := false } fl hso hro]
                  exact hsq
                simp only [doScan, hscan2]
                refine ⟨_, rfl, ?_, ?_⟩
                · exact (doScan_succ files fl comps filt
                    { it with
                        file_serial := f.upd_serial
                        flags := { it.flags with final_seen := false }
                        name := (pathComponents it.done_idx it.names).2
                        node := sec.children }
                    0 y rest2 hmg hcomps hso hro hfilt ⟨f, hfile, rfl⟩ hscan2).2.1
                · refine ((doScan_succ files fl comps filt
                    { it with
                        file_serial := f.upd_serial
                        flags := { it.flags with final_seen := false }
                        name := (pathComponents it.done_idx it.names).2
                        node := sec.children }
                    0 y rest2 hmg hcomps hso hro hfilt ⟨f, hfile, rfl⟩ hscan2).2.2).trans ?_
                  show rest2.filter (qualifies filt fl)
                      ++ (if false = true then []
                          else expectedYields fl comps filt (files.drop (it.fileIdx + 1)))
                    = tl
                  rw [if_neg Bool.false_ne_true, hdropsucc, h2]
                  exact hrem'
    · rw [if_neg hn]
      have hn' : it.node.isEmpty = false := eq_false_of_ne_true hn
      obtain ⟨hname, f0, hf0, hs0⟩ := hcur hn'
      have hnneg : ¬(it.node.isEmpty = true) := by rw [hn']; exact Bool.false_ne_true
      rw [if_neg hnneg] at hrem
      cases hfc : it.node.filter (qualifies filt fl) with
      | nil =>
        rw [hfc, List.nil_append] at hrem
        have hscan : scanQual it.name it.flags it.node 0 = none := by
          rw [hname, scanQual_congr filt it.flags fl hso hro]
          exact scanQual_none filt fl it.node 0 (by rw [hfc]; exact Nat.le_refl 0)
        have hd : doScan it 0 = none := by unfold doScan; rw [hscan]
        rw [hd]
        have hrem3 : remIt files fl comps filt
            { it with node := [], num := it.num + 1, fileIdx := it.fileIdx + 1 }
            = p :: tl := by
          simp only [remIt, List.filter_nil, List.nil_append,
            List.isEmpty_nil, if_true, hdropsucc]
          rw [hdropsucc] at hrem
          exact hrem
        exact ih
          { it with node := [], num := it.num + 1, fileIdx := it.fileIdx + 1 }
          p tl hdropsucc.symm
          ⟨hmg, hcomps, hso, hro, by intro hne; cases hne⟩ hrem3
      | cons y ys' =>
        rw [hfc, List.cons_append] at hrem
        injection hrem with hyp hrem'
        subst hyp
        obtain ⟨rest2, hsq, h2⟩ := scanQual_some filt fl it.node 0 y ys'
          (by rw [List.drop_zero]; exact hfc)
        have hscan : scanQual it.name it.flags it.node 0 = some (y, rest2) := by
          rw [hname, scanQual_congr filt it.flags fl hso hro]
          exact hsq
        have hstep := doScan_succ files fl comps filt it 0 y rest2
          hmg hcomps hso hro hname ⟨f0, hf0, hs0⟩ hscan
        rw [hstep.1]
        refine ⟨_, rfl, hstep.2.1, ?_⟩
        refine (hstep.2.2).trans ?_
        rw [h2]
        exact hrem'

theorem node_iterator_nonstale (files : List PrfFile) (fl : IterFlags)
    (comps : List String) (filt : Option String) (it : ProfileIterator)
    (hwf : IterWF files fl comps filt it) :
    profile_node_iterator files (some it) = iterResolve files it 0 := by
  obtain ⟨hmg, hcomps, hso, hro, hcur⟩ := hwf
  simp only [profile_node_iterator]
  rw [if_neg (not_not_intro hmg)]
  by_cases hn : it.node.isEmpty = true
  · rw [hn]
    simp only [Bool.not_true, Bool.false_and]
    rw [if_neg Bool.false_ne_true]
  · have hn' : it.node.isEmpty = false := eq_false_of_ne_true hn
    obtain ⟨hname, f0, hf0, hs0⟩ := hcur hn'
    have hch : (match files[it.fileIdx]? with
        | some f => f.upd_serial != it.file_serial
        | none => true) = false := by
      rw [hf0]
      simp [hs0]
    rw [hn', hch]
    simp only [Bool.not_false, Bool.true_and]
    rw [if_neg Bool.false_ne_true]

theorem node_iterator_step_nil (files : List PrfFile) (fl : IterFlags)
    (comps : List String) (filt : Option String) (it : ProfileIterator)
    (hwf : IterWF files fl comps filt it)
    (hrem : remIt files fl comps filt it = []) :
    ∀ (e : Nat) (h' : Option ProfileIterator)
      (q : Option (PNode × String × Option String)),
      profile_node_iterator files (some it) = .out e h' q → q = none := by
  intro e h' q h
  rw [node_iterator_nonstale files fl comps filt it hwf] at h
  exact iterResolveGo_sim_nil files fl comps filt (files.drop it.fileIdx) it
    rfl hwf hrem e h' q h

theorem node_iterator_step_cons (files : List PrfFile) (fl : IterFlags)
    (comps : List String) (filt : Option String) (it : ProfileIterator)
    (p : PNode) (tl : List PNode)
    (hwf : IterWF files fl comps filt it)
    (hrem : remIt files fl comps filt it = p :: tl) :
    ∃ it', profile_node_iterator files (some it)
        = .out 0 (some it') (some (p, p.name, p.value))
      ∧ IterWF files fl comps filt it'
      ∧ remIt files fl comps filt it' = tl := by
  obtain ⟨it', h1, h2, h3⟩ := iterResolveGo_sim_cons files fl comps filt
    (files.drop it.fileIdx) it p tl rfl hwf hrem
  refine ⟨it', ?_, h2, h3⟩
  rw [node_iterator_nonstale files fl comps filt it hwf]
  exact h1

theorem runIter_sim (files : List PrfFile) (fl : IterFlags) (comps : List String)
    (filt : Option String) :
    ∀ (R : List PNode) (fuel : Nat) (it : ProfileIterator),
      IterWF files fl comps filt it →
      remIt files fl comps filt it = R →
      R.length < fuel →
      runIter files fuel (some it) = R := by
  intro R
  induction R with
  | nil =>
    intro fuel it hwf hrem hf
    cases fuel with
    | zero => cases hf
    | succ n =>
      simp only [runIter]
      cases ho : profile_node_iterator files (some it) with
      | hang => rfl
      | out e h' q =>
        cases q with
        | none =>
          cases e with
          | zero => rfl
          | succ e' => rfl
        | some val =>
          have := node_iterator_step_nil files fl comps filt it hwf hrem
            e h' (some val) ho
          cases this
  | cons p tl ih =>
    intro fuel it hwf hrem hf
    cases fuel with
    | zero => cases hf
    | succ n =>
      obtain ⟨it', h1, h2, h3⟩ :=
        node_iterator_step_cons files fl comps filt it p tl hwf hrem
      simp only [runIter, h1]
      rw [ih n it' h2 h3 (Nat.lt_of_succ_lt_succ hf)]

/-- C1: the merge iterator yields exactly the spec-side sequence
`expectedYields` — sources contribute in list order, each resolved source its
qualifying children in sibling order, and a final section seen during
resolution makes that source the last one consulted; concretely, on the
two-source chain where source 1 holds a final section `a` with `k = 1` and
source 2 holds `a` with `k = 2`, the run yields only the node `k = 1`
(value `"1"`) — source 2 is never consulted. -/
theorem c1_merge_order :
    (∀ (prof : Profile) (ns : List String) (fl : IterFlags) (it0 : ProfileIterator)
       (fuel : Nat),
       fl.final_seen = false →
       profile_node_iterator_create (some prof) (some ns) fl = .ok it0 →
       (expectedYields fl (pathComponents it0.done_idx ns).1
           (pathComponents it0.done_idx ns).2 prof.first_file).length < fuel →
       runIter prof.first_file fuel (some it0)
         = expectedYields fl (pathComponents it0.done_idx ns).1
             (pathComponents it0.done_idx ns).2 prof.first_file)
    ∧ runIter c1files 5 (some c1it0) = [c1k1]
    ∧ (runIter c1files 5 (some c1it0)).map PNode.value = [some "1"]
    ∧ expectedYields {} ["a"] (some "k") c1files = [c1k1] := by
  refine ⟨?_, rfl, rfl, rfl⟩
  intro prof ns fl it0 fuel hfs hcreate hfuel
  simp only [profile_node_iterator_create] at hcreate
  by_cases hm : prof.magic ≠ PROF_MAGIC_PROFILE
  · rw [if_pos hm] at hcreate
    cases hcreate
  · rw [if_neg hm] at hcreate
    by_cases hbad : (!fl.list_section && ns.isEmpty) = true
    · rw [if_pos hbad] at hcreate
      cases hcreate
    · rw [if_neg hbad] at hcreate
      have hit0 : it0 =
          { magic := PROF_MAGIC_ITERATOR, flags := fl, names := ns,
            name := none, fileIdx := 0, file_serial := 0,
            done_idx := (if fl.list_section then 0 else 1),
            node := [], num := 0 } := (Except.ok.inj hcreate).symm
      subst hit0
      have hrem : remIt prof.first_file fl
          (pathComponents (if fl.list_section then 0 else 1) ns).1
          (pathComponents (if fl.list_section then 0 else 1) ns).2
          { magic := PROF_MAGIC_ITERATOR, flags := fl, names := ns,
            name := none, fileIdx := 0, file_serial := 0,
            done_idx := (if fl.list_section then 0 else 1),
            node := [], num := 0 }
          = expectedYields fl
              (pathComponents (if fl.list_section then 0 else 1) ns).1
              (pathComponents (if fl.list_section then 0 else 1) ns).2
              prof.first_file := by
        simp only [remIt, List.filter_nil, List.nil_append, List.isEmpty_nil,
          if_true, List.drop_zero]
        rw [hfs, if_neg Bool.false_ne_true]
      exact runIter_sim prof.first_file fl
        (pathComponents (if fl.list_section then 0 else 1) ns).1
        (pathComponents (if fl.list_section then 0 else 1) ns).2
        (expectedYields fl
          (pathComponents (if fl.list_section then 0 else 1) ns).1
          (pathComponents (if fl.list_section then 0 else 1) ns).2
          prof.first_file)
        fuel
        { magic := PROF_MAGIC_ITERATOR, flags := fl, names := ns,
          name := none, fileIdx := 0, file_serial := 0,
          done_idx := (if fl.list_section then 0 else 1),
          node := [], num := 0 }
        ⟨rfl, rfl, rfl, rfl, fun hne => by cases hne⟩
        hrem hfuel

/-- C1 witness: the simulation applied to the spec's two-source example with
fuel 5. -/
theorem c1_merge_order_witness :
    runIter c1files 5 (some c1it0)
      = expectedYields {} (pathComponents c1it0.done_idx ["a", "k"]).1
          (pathComponents c1it0.done_idx ["a", "k"]).2 c1files :=
  c1_merge_order.1 ⟨PROF_MAGIC_PROFILE, c1files⟩ ["a", "k"] {} c1it0 5
    rfl rfl (by decide)
